import Mathlib

/-! Crazy Eights: the rule engine of `Presenter.js`.

A shallow embedding of `src/crazy_eights/Presenter.js`.

* JavaScript objects mutated in place become records passed from call to call.
* The collaborators `Card`, `Deck`, `Pile`, `Player` are used by `Presenter.js`
  but their files are not part of the sources at hand; they are modelled from
  the written specification (each such definition says so).
* `View` calls and `window.alert` are recorded as an append-only list of
  `Event`s; DOM manipulation is presentation and is left out.
* Randomness is passed in: a `Shuffle` for every `Deck.shuffle` call and the
  value `r` returned by `Math.random()`.
* An operation the specification calls invalid (dealing from an empty deck,
  popping an empty pile, dereferencing a missing card) has no resulting state:
  the functions return `Option`, and `none` is that outcome.
* A second embedding (`Game`) follows the program where `dealACard()` on an empty
  deck returns `undefined` and the call goes on; hands then hold entries that may
  be `undefined`. The two embeddings agree wherever the first returns a state.
-/

namespace CrazyEights

/-! ## Cards -/

/-- Modelled from the spec: the four suits of a card (`Card` is not among the sources). -/
inductive Suit where
  | clubs | diamonds | hearts | spades
deriving DecidableEq, Repr

/-- Modelled from the spec: the ranks `A, 2-10, J, Q, K`; `eight` is the JavaScript value `"8"`. -/
inductive Rank where
  | ace | two | three | four | five | six | seven | eight | nine | ten | jack | queen | king
deriving DecidableEq, Repr

/-- Modelled from the spec: a card is a rank and a suit, equal when both agree. -/
structure Card where
  value : Rank
  suit : Suit
deriving DecidableEq, Repr

/-- Modelled from the spec: `card.getValue()`, the rank of the card. -/
def Card.getValue (c : Card) : Rank := c.value

/-- Modelled from the spec: `card.getSuit()`, the suit of the card. -/
def Card.getSuit (c : Card) : Suit := c.suit

/-- Modelled from the spec: text of a rank inside a card's identifying string. -/
def Rank.toString : Rank → String
  | .ace => "a" | .two => "2" | .three => "3" | .four => "4" | .five => "5"
  | .six => "6" | .seven => "7" | .eight => "8" | .nine => "9" | .ten => "10"
  | .jack => "j" | .queen => "q" | .king => "k"

/-- Modelled from the spec: text of a suit inside a card's identifying string. -/
def Suit.toString : Suit → String
  | .clubs => "c" | .diamonds => "d" | .hearts => "h" | .spades => "s"

/-- Modelled from the spec: the identifying string of a card, rank followed by suit. -/
def Card.toString (c : Card) : String := c.getValue.toString ++ c.getSuit.toString

/-! ## The display collaborator, as a trace -/

/-- Calls made by `Presenter.js` on its `View` (and `window.alert`), in the order made. -/
inductive Event where
  | addCardPlayerHand (card : Card)
  | displayHumanHand (hand : List Card)
  | displayPileTopCard (card : Card)
  | displaySuitPicker
  | announceHumanWinner
  | displayComputerHand (hand : List Card)
  | announceComputerWinner
  | addCardComputerHand (card : Card)
  | updateTable (topCard : Card)
  | alertInvalidCard
deriving DecidableEq, Repr

/-! ## Randomness -/

/-- Modelled from the spec: one outcome of `Deck.shuffle`, a rearrangement that keeps
exactly the cards it is given. -/
structure Shuffle where
  run : List Card → List Card
  perm : ∀ l, List.Perm (run l) l

/-- The shuffle that leaves every sequence as it is. -/
def Shuffle.keep : Shuffle := ⟨fun l => l, fun l => List.Perm.refl l⟩

/-- The shuffle that turns a sequence around. -/
def Shuffle.flip : Shuffle := ⟨fun l => l.reverse, fun l => List.reverse_perm l⟩

/-- The shuffle that arranges the cards of `target` as `target` and leaves other sequences alone. -/
def Shuffle.stack (target : List Card) : Shuffle :=
  ⟨fun l => if l.isPerm target then target else l, fun l => by
    by_cases h : l.isPerm target
    · simpa [h] using (List.isPerm_iff.mp h).symm
    · simp [h]⟩

/-- Source `Presenter.prototype.getRandomInt`, `Math.floor(Math.random() * (max - min + 1)) + min`,
with `r` the value of `Math.random()`. -/
def getRandomInt (r : ℚ) (min max : Int) : Int :=
  Rat.floor (r * ((max : ℚ) - (min : ℚ) + 1)) + min

/-! ## Deck -/

/-- Modelled from the spec: the draw pile, `list` with the top card first. -/
structure Deck where
  list : List Card
deriving DecidableEq, Repr

/-- All thirteen ranks. -/
def Rank.all : List Rank :=
  [.ace, .two, .three, .four, .five, .six, .seven, .eight, .nine, .ten, .jack, .queen, .king]

/-- All four suits. -/
def Suit.all : List Suit := [.clubs, .diamonds, .hearts, .spades]

/-- Modelled from the spec: `new Deck()`, fully populated with one card of each rank and suit. -/
def Deck.new : Deck :=
  ⟨Suit.all.flatMap fun s => Rank.all.map fun v => ⟨v, s⟩⟩

/-- Modelled from the spec: `deck.shuffle()`. -/
def Deck.shuffle (sh : Shuffle) (d : Deck) : Deck := ⟨sh.run d.list⟩

/-- Modelled from the spec: `deck.dealACard()` removes and returns the top card; invalid on
an empty deck. -/
def Deck.dealACard (d : Deck) : Option (Card × Deck) :=
  match d.list with
  | [] => none
  | c :: rest => some (c, ⟨rest⟩)

/-- Modelled from the spec: `deck.isTopCardAnEight()`. -/
def Deck.isTopCardAnEight (d : Deck) : Bool :=
  match d.list with
  | [] => false
  | c :: _ => c.getValue == Rank.eight

/-! ## Pile -/

/-- Modelled from the spec: the discard stack, `list` with the top card first, and the
announced suit, absent until set. -/
structure Pile where
  list : List Card
  announcedSuit : Option Suit
deriving DecidableEq, Repr

/-- Modelled from the spec: `new Pile()`. -/
def Pile.new : Pile := ⟨[], none⟩

/-- Modelled from the spec: `pile.acceptACard(card)` pushes the card onto the top. -/
def Pile.acceptACard (card : Card) (p : Pile) : Pile := { p with list := card :: p.list }

/-- Modelled from the spec: `pile.getTopCard()` returns the top card without removing it. -/
def Pile.getTopCard (p : Pile) : Option Card := p.list.head?

/-- Modelled from the spec: `pile.removeTopCard()` pops and returns the top card. -/
def Pile.removeTopCard (p : Pile) : Option (Card × Pile) :=
  match p.list with
  | [] => none
  | c :: rest => some (c, { p with list := rest })

/-- Modelled from the spec: `pile.setAnnouncedSuit(suit)`. -/
def Pile.setAnnouncedSuit (suit : Suit) (p : Pile) : Pile := { p with announcedSuit := some suit }

/-- Modelled from the spec: `pile.isValidToPlay(card)`. With an eight on top a card is valid
when its suit is the announced suit or it is an eight; otherwise when it matches the top card
in suit or rank or is an eight. An eight is always valid. A missing card (`null`, `undefined`)
is not valid: that is what makes `playComputer` draw. -/
def Pile.isValidToPlay (p : Pile) : Option Card → Bool
  | none => false
  | some card =>
    match p.getTopCard with
    | some topCard =>
      if topCard.getValue = Rank.eight then
        (p.announcedSuit == some card.getSuit) || card.getValue == Rank.eight
      else
        card.getSuit == topCard.getSuit || card.getValue == topCard.getValue
          || card.getValue == Rank.eight
    | none => card.getValue == Rank.eight

/-! ## Player -/

/-- Modelled from the spec: a player's hand, in storage order. -/
structure Player where
  list : List Card
deriving DecidableEq, Repr

/-- Modelled from the spec: `player.add(card)` stores the card at the end of the hand. -/
def Player.add (card : Card) (p : Player) : Player := ⟨p.list ++ [card]⟩

/-- Modelled from the spec: `player.remove(index)` takes the card at that index out. -/
def Player.remove (index : Nat) (p : Player) : Player := ⟨p.list.eraseIdx index⟩

/-- Modelled from the spec: `player.find(identifier)` locates a card of the hand by its
identifying string; nothing is found when no card matches. -/
def Player.find (cardString : String) (p : Player) : Option Card :=
  p.list.find? fun c => c.toString == cardString

/-- Modelled from the spec: `player.indexOf(card)`. -/
def Player.indexOf (card : Card) (p : Player) : Nat := p.list.indexOf card

/-- Modelled from the spec: `player.isHandEmpty()`. -/
def Player.isHandEmpty (p : Player) : Bool := p.list.isEmpty

/-- Modelled from the spec: `player.getHandCopy()`, a snapshot of the hand. -/
def Player.getHandCopy (p : Player) : List Card := p.list

/-- Deal `n` cards from the deck into a hand, one `dealACard` at a time. -/
def Player.deal : Nat → Deck → Player → Option (Player × Deck)
  | 0, d, p => some (p, d)
  | n + 1, d, p =>
    match d.dealACard with
    | none => none
    | some (c, d') => Player.deal n d' (p.add c)

/-- Modelled from the spec: `new Player(deck)`, a hand of 7 cards dealt from the deck. -/
def Player.new (d : Deck) : Option (Player × Deck) := Player.deal 7 d ⟨[]⟩

/-! ## Presenter -/

/-- The game: the fields of `Presenter` in `Presenter.js`, with `view` the trace of the calls
made on the display so far. -/
structure Presenter where
  deck : Deck
  pile : Pile
  human : Player
  computer : Player
  view : List Event
  difficultyLevel : String
deriving DecidableEq, Repr

/-- Record one call on the display. -/
def Presenter.notify (e : Event) (s : Presenter) : Presenter := { s with view := s.view ++ [e] }

/-- The loop `while (this.pile.list.length != 0) { newDeck[i] = this.pile.removeTopCard(); i++; }`
of `updateDeck`: the cards left on the pile are appended to `newDeck`, top first. -/
def drainPile : List Card → List Card → List Card
  | [], newDeck => newDeck
  | c :: rest, newDeck => drainPile rest (newDeck ++ [c])

/-- Source `Presenter.prototype.updateDeck`: the top card is set aside, the rest of the pile
becomes the deck and is shuffled, the top card goes back on the emptied pile. -/
def Presenter.updateDeck (sh : Shuffle) (s : Presenter) : Option Presenter :=
  match s.pile.removeTopCard with
  | none => none
  | some (topCard, pile) =>
    let newDeck := drainPile pile.list []
    let pile : Pile := { pile with list := [] }
    let s := { s with pile := pile.acceptACard topCard }
    let s := { s with deck := Deck.shuffle sh ⟨newDeck⟩ }
    some (s.notify (.updateTable topCard))

/-- The statement `if (this.deck.list.length == 0) { this.updateDeck(); }`. -/
def Presenter.updateDeckIfEmpty (sh : Shuffle) (s : Presenter) : Option Presenter :=
  if s.deck.list.length = 0 then s.updateDeck sh else some s

/-- The loop `while (!this.pile.isValidToPlay(card) && i < hand.length-1) { i++; card = hand[i]; }`
of `playComputer`, run for at most `fuel` rounds from the values `i` and `card`. -/
def searchLoop (pile : Pile) (hand : List Card) : Nat → Nat → Option Card → Nat × Option Card
  | 0, i, card => (i, card)
  | fuel + 1, i, card =>
    if !pile.isValidToPlay card && decide ((i : Int) < (hand.length : Int) - 1) then
      searchLoop pile hand fuel (i + 1) hand[i + 1]?
    else
      (i, card)

/-- The search of `playComputer`: `card = hand[0]` followed by the loop; the loop makes fewer
rounds than the hand has cards. -/
def search (pile : Pile) (hand : List Card) : Nat × Option Card :=
  searchLoop pile hand hand.length 0 hand[0]?

/-- The `switch (this.difficultyLevel)` of `playComputer`: the values of `i` and `card` it
leaves. `r` is the value of `Math.random()` when the level rolls; any level other than the
three named ones matches no case and leaves `i = 0`, `card = null`. -/
def Presenter.pick (r : ℚ) (s : Presenter) : Nat × Option Card :=
  let hand := s.computer.getHandCopy
  match s.difficultyLevel with
  | "very easy" => if getRandomInt r 1 2 != 1 then search s.pile hand else (0, none)
  | "easy" => if getRandomInt r 1 3 != 1 then search s.pile hand else (0, none)
  | "medium" => search s.pile hand
  | _ => (0, none)

/-- The branch of `playComputer` taken when `isValidToPlay(card)` holds: the card at index `i`
leaves the computer's hand for the pile; an eight announces its own suit; a winner is announced
when the hand is empty. -/
def Presenter.computerPlays (i : Nat) (card : Card) (s : Presenter) : Presenter :=
  let s := { s with computer := s.computer.remove i }
  let s := { s with pile := s.pile.acceptACard card }
  let s := s.notify (.displayPileTopCard card)
  let s :=
    if (s.pile.getTopCard.map Card.getValue) = some Rank.eight then
      { s with pile := s.pile.setAnnouncedSuit card.getSuit }
    else s
  let s := s.notify (.displayComputerHand s.computer.getHandCopy)
  if s.computer.isHandEmpty then s.notify .announceComputerWinner else s

/-- The `else` branch of `playComputer`: the computer takes the top card of the deck. -/
def Presenter.computerDraws (s : Presenter) : Option Presenter :=
  match s.deck.dealACard with
  | none => none
  | some (card, deck) =>
    let s := { s with deck := deck }
    let s := { s with computer := s.computer.add card }
    some (s.notify (.addCardComputerHand card))

/-- Source `Presenter.prototype.playComputer`. `r` is the value of `Math.random()` used when the
difficulty level rolls; `sh` is the outcome of the shuffle if the deck is refilled. -/
def Presenter.playComputer (sh : Shuffle) (r : ℚ) (s : Presenter) : Option Presenter :=
  let found := s.pick r
  let i := found.1
  let played : Option Presenter :=
    if s.pile.isValidToPlay found.2 then
      match found.2 with
      | none => none
      | some card => some (s.computerPlays i card)
    else
      s.computerDraws
  played.bind (Presenter.updateDeckIfEmpty sh)

/-- The first statements of `drawCard`: the human takes the top card of the deck. -/
def Presenter.humanDraws (s : Presenter) : Option Presenter :=
  match s.deck.dealACard with
  | none => none
  | some (card, deck) =>
    let s := { s with deck := deck }
    let s := { s with human := s.human.add card }
    some (s.notify (.addCardPlayerHand card))

/-- Source `Presenter.prototype.drawCard`. -/
def Presenter.drawCard (sh₁ sh₂ : Shuffle) (r : ℚ) (s : Presenter) : Option Presenter :=
  match s.humanDraws with
  | none => none
  | some s => (s.updateDeckIfEmpty sh₁).bind (Presenter.playComputer sh₂ r)

/-- The statements of `playCard` that move an accepted card from the human's hand to the pile. -/
def Presenter.humanPlays (card : Card) (s : Presenter) : Presenter :=
  let s := { s with human := s.human.remove (s.human.indexOf card) }
  let s := s.notify (.displayHumanHand s.human.getHandCopy)
  let s := { s with pile := s.pile.acceptACard card }
  s.notify (.displayPileTopCard card)

/-- Source `Presenter.prototype.playCard`. -/
def Presenter.playCard (sh₁ sh₂ : Shuffle) (r : ℚ) (cardString : String) (s : Presenter) :
    Option Presenter :=
  let found := s.human.find cardString
  if s.pile.isValidToPlay found then
    match found with
    | none => none
    | some card =>
      let s := s.humanPlays card
      let next : Option Presenter :=
        if (s.pile.getTopCard.map Card.getValue) = some Rank.eight then
          some (s.notify .displaySuitPicker)
        else if s.human.isHandEmpty then
          some (s.notify .announceHumanWinner)
        else
          s.playComputer sh₁ r
      next.bind (Presenter.updateDeckIfEmpty sh₂)
  else
    some (s.notify .alertInvalidCard)

/-- Source `Presenter.prototype.continueGameAfterSuitSelection`. -/
def Presenter.continueGameAfterSuitSelection (sh₁ sh₂ : Shuffle) (r : ℚ) (suit : Suit)
    (s : Presenter) : Option Presenter :=
  let s := { s with pile := s.pile.setAnnouncedSuit suit }
  if s.human.isHandEmpty then
    some (s.notify .announceHumanWinner)
  else
    (s.updateDeckIfEmpty sh₁).bind (Presenter.playComputer sh₂ r)

/-- The loop `do { this.deck.shuffle(); } while (this.deck.isTopCardAnEight());` of the
constructor, one `Shuffle` per round; `none` while the given outcomes all leave an eight on top. -/
def shuffleUntilNoEight : List Shuffle → Deck → Option Deck
  | [], _ => none
  | sh :: rest, d =>
    let d := d.shuffle sh
    if d.isTopCardAnEight then shuffleUntilNoEight rest d else some d

/-- Source `Presenter` (the constructor): shuffle until the top card is not an eight, deal it to
the pile, deal 7 cards to the human and 7 to the computer; the difficulty starts at `medium`. -/
def Presenter.new (shs : List Shuffle) : Option Presenter :=
  match shuffleUntilNoEight shs Deck.new with
  | none => none
  | some deck =>
    match deck.dealACard with
    | none => none
    | some (first, deck) =>
      let pile := Pile.new.acceptACard first
      match Player.new deck with
      | none => none
      | some (human, deck) =>
        match Player.new deck with
        | none => none
        | some (computer, deck) =>
          some { deck := deck, pile := pile, human := human, computer := computer,
                 view := [], difficultyLevel := "medium" }

/-- One call made by the display on the game, with the random outcomes met during it. -/
inductive Call where
  | drawCard (sh₁ sh₂ : Shuffle) (r : ℚ)
  | playCard (sh₁ sh₂ : Shuffle) (r : ℚ) (cardString : String)
  | continueGameAfterSuitSelection (sh₁ sh₂ : Shuffle) (r : ℚ) (suit : Suit)
  | setDifficulty (level : String)

/-- Carry out one call. Choosing a difficulty is the assignment of `difficultyLevel`. -/
def Presenter.call (s : Presenter) : Call → Option Presenter
  | .drawCard sh₁ sh₂ r => s.drawCard sh₁ sh₂ r
  | .playCard sh₁ sh₂ r cardString => s.playCard sh₁ sh₂ r cardString
  | .continueGameAfterSuitSelection sh₁ sh₂ r suit => s.continueGameAfterSuitSelection sh₁ sh₂ r suit
  | .setDifficulty level => some { s with difficultyLevel := level }

/-- Carry out a sequence of calls, stopping at the first one without a resulting state. -/
def Presenter.run : Presenter → List Call → Option Presenter
  | s, [] => some s
  | s, c :: cs => (s.call c).bind fun s' => s'.run cs

/-- States of the game reachable from a freshly constructed game by calls of the display. -/
inductive Reachable : Presenter → Prop where
  | start (shs : List Shuffle) (s : Presenter) : Presenter.new shs = some s → Reachable s
  | step (s s' : Presenter) (c : Call) : Reachable s → s.call c = some s' → Reachable s'

/-- The entries of the deck, the pile and the two hands, in that order. -/
def Presenter.cards (s : Presenter) : List Card :=
  s.deck.list ++ s.pile.list ++ s.human.list ++ s.computer.list

/-- Number of entries held by the deck, the pile and the two hands together. -/
def Presenter.total (s : Presenter) : Nat :=
  s.deck.list.length + s.pile.list.length + s.human.list.length + s.computer.list.length

/-! ## Concrete games -/

/-- A game as constructed when the shuffle turns the new deck around. -/
def freshGame : Presenter :=
  { deck := ⟨Deck.new.list.reverse.drop 15⟩
    pile := ⟨Deck.new.list.reverse.take 1, none⟩
    human := ⟨(Deck.new.list.reverse.drop 1).take 7⟩
    computer := ⟨(Deck.new.list.reverse.drop 8).take 7⟩
    view := []
    difficultyLevel := "medium" }

/-- A state with an empty deck and three cards on the pile, seven of diamonds on top. -/
def emptyDeckGame : Presenter :=
  { deck := ⟨[]⟩
    pile := ⟨[⟨.seven, .diamonds⟩, ⟨.three, .clubs⟩, ⟨.king, .hearts⟩], none⟩
    human := ⟨[⟨.two, .spades⟩, ⟨.seven, .clubs⟩]⟩
    computer := ⟨[⟨.nine, .hearts⟩, ⟨.four, .diamonds⟩]⟩
    view := []
    difficultyLevel := "medium" }

/-- A state in which the pile accepts no card of the computer's hand. -/
def stuckGame : Presenter :=
  { deck := ⟨[⟨.five, .clubs⟩, ⟨.jack, .spades⟩]⟩
    pile := ⟨[⟨.seven, .diamonds⟩], none⟩
    human := ⟨[⟨.two, .spades⟩]⟩
    computer := ⟨[⟨.nine, .hearts⟩, ⟨.king, .spades⟩]⟩
    view := []
    difficultyLevel := "medium" }

/-- A state in which the human holds an eight and the deck is not empty. -/
def eightGame : Presenter :=
  { deck := ⟨[⟨.five, .clubs⟩, ⟨.jack, .spades⟩]⟩
    pile := ⟨[⟨.seven, .diamonds⟩, ⟨.seven, .clubs⟩], none⟩
    human := ⟨[⟨.two, .spades⟩, ⟨.eight, .hearts⟩]⟩
    computer := ⟨[⟨.nine, .diamonds⟩, ⟨.king, .spades⟩]⟩
    view := []
    difficultyLevel := "medium" }

/-- A state right after the human played the eight of hearts, the suit not yet chosen. -/
def suitPendingGame : Presenter :=
  { deck := ⟨[⟨.five, .clubs⟩, ⟨.jack, .spades⟩]⟩
    pile := ⟨[⟨.eight, .hearts⟩, ⟨.seven, .diamonds⟩, ⟨.seven, .clubs⟩], none⟩
    human := ⟨[⟨.two, .spades⟩]⟩
    computer := ⟨[⟨.nine, .diamonds⟩, ⟨.king, .clubs⟩, ⟨.three, .hearts⟩]⟩
    view := []
    difficultyLevel := "medium" }

/-- A state in which the human holds one last playable card and the deck is empty. -/
def lastCardGame : Presenter :=
  { deck := ⟨[]⟩
    pile := ⟨[⟨.five, .spades⟩], none⟩
    human := ⟨[⟨.nine, .spades⟩]⟩
    computer := ⟨[⟨.king, .diamonds⟩, ⟨.two, .hearts⟩]⟩
    view := []
    difficultyLevel := "medium" }

/-- A state in which the human holds one last playable card and the deck is not empty. -/
def lastCardDeckGame : Presenter :=
  { deck := ⟨[⟨.five, .clubs⟩, ⟨.jack, .spades⟩]⟩
    pile := ⟨[⟨.five, .spades⟩, ⟨.five, .hearts⟩], none⟩
    human := ⟨[⟨.nine, .spades⟩]⟩
    computer := ⟨[⟨.king, .diamonds⟩, ⟨.two, .hearts⟩]⟩
    view := []
    difficultyLevel := "medium" }

/-- An order of the 52 cards: the ace of spades for the pile, seven spades for the human, seven
cards for the computer that never fit a spade from two to nine, then the rest of the deck. -/
def stackedDeck : List Card :=
  [⟨.ace, .spades⟩,
   ⟨.two, .spades⟩, ⟨.three, .spades⟩, ⟨.four, .spades⟩, ⟨.five, .spades⟩, ⟨.six, .spades⟩,
   ⟨.seven, .spades⟩, ⟨.nine, .spades⟩,
   ⟨.ten, .hearts⟩, ⟨.jack, .hearts⟩, ⟨.queen, .hearts⟩, ⟨.king, .hearts⟩, ⟨.ten, .diamonds⟩,
   ⟨.jack, .diamonds⟩, ⟨.queen, .diamonds⟩,
   ⟨.king, .diamonds⟩, ⟨.ten, .clubs⟩, ⟨.jack, .clubs⟩, ⟨.queen, .clubs⟩, ⟨.king, .clubs⟩,
   ⟨.ace, .hearts⟩,
   ⟨.two, .hearts⟩, ⟨.three, .hearts⟩, ⟨.four, .hearts⟩, ⟨.five, .hearts⟩, ⟨.six, .hearts⟩,
   ⟨.seven, .hearts⟩, ⟨.eight, .hearts⟩, ⟨.nine, .hearts⟩,
   ⟨.ace, .diamonds⟩, ⟨.two, .diamonds⟩, ⟨.three, .diamonds⟩, ⟨.four, .diamonds⟩,
   ⟨.five, .diamonds⟩, ⟨.six, .diamonds⟩, ⟨.seven, .diamonds⟩, ⟨.eight, .diamonds⟩,
   ⟨.nine, .diamonds⟩,
   ⟨.ace, .clubs⟩, ⟨.two, .clubs⟩, ⟨.three, .clubs⟩, ⟨.four, .clubs⟩, ⟨.five, .clubs⟩,
   ⟨.six, .clubs⟩, ⟨.seven, .clubs⟩, ⟨.eight, .clubs⟩, ⟨.nine, .clubs⟩,
   ⟨.eight, .spades⟩, ⟨.ten, .spades⟩, ⟨.jack, .spades⟩, ⟨.queen, .spades⟩, ⟨.king, .spades⟩]

/-- The game as constructed when the first shuffle arranges the deck as `stackedDeck`. -/
def stackedGame : Presenter :=
  { deck := ⟨stackedDeck.drop 15⟩
    pile := ⟨stackedDeck.take 1, none⟩
    human := ⟨(stackedDeck.drop 1).take 7⟩
    computer := ⟨(stackedDeck.drop 8).take 7⟩
    view := []
    difficultyLevel := "medium" }

/-- The human plays the seven spades of the hand one after the other. -/
def wonCalls : List Call :=
  [Call.playCard Shuffle.keep Shuffle.keep 0 "2s", Call.playCard Shuffle.keep Shuffle.keep 0 "3s",
   Call.playCard Shuffle.keep Shuffle.keep 0 "4s", Call.playCard Shuffle.keep Shuffle.keep 0 "5s",
   Call.playCard Shuffle.keep Shuffle.keep 0 "6s", Call.playCard Shuffle.keep Shuffle.keep 0 "7s",
   Call.playCard Shuffle.keep Shuffle.keep 0 "9s"]

/-- The state after `wonCalls`: the human has no card left, the computer drew six times. -/
def wonGame : Presenter :=
  { deck := ⟨stackedDeck.drop 21⟩
    pile := ⟨((stackedDeck.take 8).reverse), none⟩
    human := ⟨[]⟩
    computer := ⟨(stackedDeck.drop 8).take 13⟩
    view := (stackedGame.run wonCalls).elim [] Presenter.view
    difficultyLevel := "medium" }

/-- The nineteen cards the human draws in the game `drainGame`, in the order drawn. -/
def drainHumanDraws : List Card :=
  [⟨.ace, .clubs⟩, ⟨.eight, .clubs⟩, ⟨.ace, .diamonds⟩, ⟨.eight, .diamonds⟩, ⟨.king, .diamonds⟩,
   ⟨.ace, .hearts⟩, ⟨.two, .hearts⟩, ⟨.three, .hearts⟩, ⟨.four, .hearts⟩, ⟨.five, .hearts⟩,
   ⟨.six, .hearts⟩, ⟨.seven, .hearts⟩, ⟨.eight, .hearts⟩, ⟨.nine, .hearts⟩, ⟨.eight, .spades⟩,
   ⟨.ten, .spades⟩, ⟨.jack, .spades⟩, ⟨.queen, .spades⟩, ⟨.king, .spades⟩]

/-- The eighteen cards the computer draws in the game `drainGame`, in the order drawn: none is a
spade, an ace or an eight. -/
def drainComputerDraws : List Card :=
  [⟨.two, .clubs⟩, ⟨.three, .clubs⟩, ⟨.four, .clubs⟩, ⟨.five, .clubs⟩, ⟨.six, .clubs⟩,
   ⟨.seven, .clubs⟩, ⟨.nine, .clubs⟩, ⟨.ten, .clubs⟩, ⟨.jack, .clubs⟩, ⟨.queen, .clubs⟩,
   ⟨.king, .clubs⟩, ⟨.two, .diamonds⟩, ⟨.three, .diamonds⟩, ⟨.four, .diamonds⟩,
   ⟨.five, .diamonds⟩, ⟨.six, .diamonds⟩, ⟨.seven, .diamonds⟩, ⟨.nine, .diamonds⟩]

/-- An order of the 52 cards: the ace of spades for the pile, seven spades for the human, seven
cards for the computer that fit neither a spade nor an ace, then a deck from which the human and
the computer draw in turn. -/
def drainDeck : List Card :=
  [⟨.ace, .spades⟩, ⟨.two, .spades⟩, ⟨.three, .spades⟩, ⟨.four, .spades⟩, ⟨.five, .spades⟩,
   ⟨.six, .spades⟩, ⟨.seven, .spades⟩, ⟨.nine, .spades⟩, ⟨.ten, .hearts⟩, ⟨.jack, .hearts⟩,
   ⟨.queen, .hearts⟩, ⟨.king, .hearts⟩, ⟨.ten, .diamonds⟩, ⟨.jack, .diamonds⟩, ⟨.queen, .diamonds⟩]
    ++ (drainHumanDraws.zip drainComputerDraws).flatMap (fun p => [p.1, p.2])
    ++ drainHumanDraws.drop 18

/-- The game as constructed when the first shuffle arranges the deck as `drainDeck`. -/
def drainGame : Presenter :=
  { deck := ⟨drainDeck.drop 15⟩
    pile := ⟨drainDeck.take 1, none⟩
    human := ⟨(drainDeck.drop 1).take 7⟩
    computer := ⟨(drainDeck.drop 8).take 7⟩
    view := []
    difficultyLevel := "medium" }

/-- The human draws eighteen times in a row; the computer, unable to play, draws after each. -/
def drainCalls : List Call := List.replicate 18 (Call.drawCard Shuffle.keep Shuffle.keep 0)

/-- The state after `drainCalls`: one card is left on the deck and one on the pile. -/
def lastDrawGame : Presenter :=
  { deck := ⟨drainHumanDraws.drop 18⟩
    pile := ⟨drainDeck.take 1, none⟩
    human := ⟨(drainDeck.drop 1).take 7 ++ drainHumanDraws.take 18⟩
    computer := ⟨(drainDeck.drop 8).take 7 ++ drainComputerDraws⟩
    view := (drainGame.run drainCalls).elim [] Presenter.view
    difficultyLevel := "medium" }

/-- The state inside the nineteenth `drawCard`, when `playComputer` starts: the human took the
last card, the refill found nothing under the top card of the pile, the deck is empty. -/
def emptiedGame : Presenter :=
  { deck := ⟨[]⟩
    pile := ⟨drainDeck.take 1, none⟩
    human := ⟨(drainDeck.drop 1).take 7 ++ drainHumanDraws⟩
    computer := ⟨(drainDeck.drop 8).take 7 ++ drainComputerDraws⟩
    view := lastDrawGame.view ++ [Event.addCardPlayerHand ⟨.king, .spades⟩,
      Event.updateTable ⟨.ace, .spades⟩]
    difficultyLevel := "medium" }

/-! ## Predicates on states -/

/-- The top card of the pile is an eight. -/
def Presenter.EightOnTop (s : Presenter) : Prop :=
  s.pile.getTopCard.map Card.getValue = some Rank.eight

/-- With an eight on top of the pile, either a suit is announced or the display has been asked
for the suit picker. -/
def Presenter.SuitKnownOrAsked (s : Presenter) : Prop :=
  s.EightOnTop → s.pile.announcedSuit.isSome = true ∨ Event.displaySuitPicker ∈ s.view

/-- How a later state `s'` relates to an earlier state `s`: the display trace only grows, an
announced suit is never taken back, and the top card of the pile either is the same or satisfies
`SuitKnownOrAsked`. -/
def Presenter.Advance (s s' : Presenter) : Prop :=
  (∃ evs, s'.view = s.view ++ evs) ∧
  (s.pile.announcedSuit.isSome = true → s'.pile.announcedSuit.isSome = true) ∧
  (s'.pile.getTopCard = s.pile.getTopCard ∨ s'.SuitKnownOrAsked)

/-- The legal-move rule in the words of the specification, for a pile with top card `t` and a
candidate card `c`: either `t` is an eight and `c` has the announced suit or is an eight, or `t`
is no eight and `c` matches `t` in suit or in rank or is an eight. -/
def LegalMove (p : Pile) (t c : Card) : Prop :=
  (t.getValue = Rank.eight ∧ (p.announcedSuit = some c.getSuit ∨ c.getValue = Rank.eight)) ∨
  (t.getValue ≠ Rank.eight ∧
    (c.getSuit = t.getSuit ∨ c.getValue = t.getValue ∨ c.getValue = Rank.eight))

/-- A state in which the first card of the computer's hand that the pile accepts is an eight. -/
def computerEightGame : Presenter :=
  { deck := ⟨[⟨.five, .clubs⟩, ⟨.jack, .spades⟩]⟩
    pile := ⟨[⟨.seven, .diamonds⟩, ⟨.seven, .clubs⟩], none⟩
    human := ⟨[⟨.two, .spades⟩, ⟨.three, .hearts⟩]⟩
    computer := ⟨[⟨.nine, .hearts⟩, ⟨.eight, .clubs⟩, ⟨.king, .diamonds⟩]⟩
    view := []
    difficultyLevel := "medium" }

/-- The state after the human plays the eight of spades in `freshGame`: the suit picker is
shown, no suit has been chosen yet. -/
def pendingGame : Presenter :=
  { freshGame with
    pile := ⟨⟨.eight, .spades⟩ :: freshGame.pile.list, none⟩
    human := ⟨freshGame.human.list.erase ⟨.eight, .spades⟩⟩
    view := [Event.displayHumanHand (freshGame.human.list.erase ⟨.eight, .spades⟩),
      Event.displayPileTopCard ⟨.eight, .spades⟩, Event.displaySuitPicker] }

/-- The state after the human then chooses hearts and the computer answers with the king of
hearts: a card that is no eight lies on the eight, and hearts is still announced. -/
def staleSuitGame : Presenter :=
  { pendingGame with
    pile := ⟨⟨.king, .hearts⟩ :: pendingGame.pile.list, some Suit.hearts⟩
    computer := ⟨pendingGame.computer.list.erase ⟨.king, .hearts⟩⟩
    view := pendingGame.view ++ [Event.displayPileTopCard ⟨.king, .hearts⟩,
      Event.displayComputerHand (pendingGame.computer.list.erase ⟨.king, .hearts⟩)] }

/-- The state `computerEightGame` at difficulty `very easy`: the computer holds a card the pile
accepts. -/
def veryEasyGame : Presenter := { computerEightGame with difficultyLevel := "very easy" }

/-- The state `computerEightGame` at difficulty `easy`. -/
def easyGame : Presenter := { computerEightGame with difficultyLevel := "easy" }

/-- The state `s` with the difficulty level set to `level`. -/
def Presenter.withLevel (level : String) (s : Presenter) : Presenter :=
  { s with difficultyLevel := level }

/-! ## The program going on after an empty deal

`Presenter.js` does not test the deck before `dealACard()`. The embedding above gives a call
that deals from an empty deck no resulting state. The embedding below follows the other reading
of the specification ("Fails/undefined if empty"): `dealACard()` on an empty deck returns
`undefined`, the hand stores it, and the call goes on. Hands therefore hold entries that are a
card or `undefined`. The display is left out: no statement of `Presenter.js` reads anything
back from it. The only operation left without a result is popping an empty pile. -/

/-- Modelled from the spec: `deck.dealACard()` read as returning `undefined` on an empty deck:
the card dealt, if any, and the deck that is left. -/
def Deck.dealOrUndefined (d : Deck) : Option Card × Deck :=
  match d.list with
  | [] => (none, d)
  | c :: rest => (some c, ⟨rest⟩)

/-- Modelled from the spec: a player's hand in storage order, each entry a card or `undefined`. -/
structure Hand where
  list : List (Option Card)
deriving DecidableEq, Repr

/-- Modelled from the spec: `player.add(card)` stores the value at the end of the hand. -/
def Hand.add (card : Option Card) (h : Hand) : Hand := ⟨h.list ++ [card]⟩

/-- Modelled from the spec: `player.remove(index)`. -/
def Hand.remove (index : Nat) (h : Hand) : Hand := ⟨h.list.eraseIdx index⟩

/-- Modelled from the spec: `player.find(identifier)`; an `undefined` entry matches nothing. -/
def Hand.find (cardString : String) (h : Hand) : Option Card :=
  (h.list.find? fun e =>
    match e with
    | some c => c.toString == cardString
    | none => false).join

/-- Modelled from the spec: `player.indexOf(card)`. -/
def Hand.indexOf (card : Card) (h : Hand) : Nat := h.list.indexOf (some card)

/-- Modelled from the spec: `player.isHandEmpty()`. -/
def Hand.isHandEmpty (h : Hand) : Bool := h.list.isEmpty

/-- Modelled from the spec: `player.getHandCopy()`. -/
def Hand.getHandCopy (h : Hand) : List (Option Card) := h.list

/-- The fields of `Presenter` without the display, the hands holding entries that may be
`undefined`. -/
structure Game where
  deck : Deck
  pile : Pile
  human : Hand
  computer : Hand
  difficultyLevel : String
deriving DecidableEq, Repr

/-- Source `Presenter.prototype.updateDeck`, as `Presenter.updateDeck`; no result when the pile
has no top card to set aside. -/
def Game.updateDeck (sh : Shuffle) (g : Game) : Option Game :=
  match g.pile.removeTopCard with
  | none => none
  | some (topCard, pile) =>
    let newDeck := drainPile pile.list []
    let pile : Pile := { pile with list := [] }
    let g := { g with pile := pile.acceptACard topCard }
    some { g with deck := Deck.shuffle sh ⟨newDeck⟩ }

/-- The statement `if (this.deck.list.length == 0) { this.updateDeck(); }`. -/
def Game.updateDeckIfEmpty (sh : Shuffle) (g : Game) : Option Game :=
  if g.deck.list.length = 0 then g.updateDeck sh else some g

/-- The loop `while (!this.pile.isValidToPlay(card) && i < hand.length-1) { i++; card = hand[i]; }`
of `playComputer` on a hand whose entries may be `undefined`, run for at most `fuel` rounds. -/
def Game.searchLoop (pile : Pile) (hand : List (Option Card)) :
    Nat → Nat → Option Card → Nat × Option Card
  | 0, i, card => (i, card)
  | fuel + 1, i, card =>
    if !pile.isValidToPlay card && decide ((i : Int) < (hand.length : Int) - 1) then
      Game.searchLoop pile hand fuel (i + 1) hand[i + 1]?.join
    else
      (i, card)

/-- The search of `playComputer`: `card = hand[0]` followed by the loop. -/
def Game.search (pile : Pile) (hand : List (Option Card)) : Nat × Option Card :=
  Game.searchLoop pile hand hand.length 0 hand[0]?.join

/-- The `switch (this.difficultyLevel)` of `playComputer`, as `Presenter.pick`. -/
def Game.pick (r : ℚ) (g : Game) : Nat × Option Card :=
  let hand := g.computer.getHandCopy
  match g.difficultyLevel with
  | "very easy" => if getRandomInt r 1 2 != 1 then Game.search g.pile hand else (0, none)
  | "easy" => if getRandomInt r 1 3 != 1 then Game.search g.pile hand else (0, none)
  | "medium" => Game.search g.pile hand
  | _ => (0, none)

/-- The branch of `playComputer` taken when `isValidToPlay(card)` holds. -/
def Game.computerPlays (i : Nat) (card : Card) (g : Game) : Game :=
  let g := { g with computer := g.computer.remove i }
  let g := { g with pile := g.pile.acceptACard card }
  if (g.pile.getTopCard.map Card.getValue) = some Rank.eight then
    { g with pile := g.pile.setAnnouncedSuit card.getSuit }
  else g

/-- The `else` branch of `playComputer`: the computer stores what `dealACard()` returns, a card
or `undefined`. -/
def Game.computerDraws (g : Game) : Game :=
  let dealt := g.deck.dealOrUndefined
  let g := { g with deck := dealt.2 }
  { g with computer := g.computer.add dealt.1 }

/-- Source `Presenter.prototype.playComputer`, going on after an empty deal. -/
def Game.playComputer (sh : Shuffle) (r : ℚ) (g : Game) : Option Game :=
  let found := g.pick r
  let i := found.1
  let played : Option Game :=
    if g.pile.isValidToPlay found.2 then
      match found.2 with
      | none => none
      | some card => some (g.computerPlays i card)
    else
      some g.computerDraws
  played.bind (Game.updateDeckIfEmpty sh)

/-- The first statements of `drawCard`: the human stores what `dealACard()` returns. -/
def Game.humanDraws (g : Game) : Game :=
  let dealt := g.deck.dealOrUndefined
  let g := { g with deck := dealt.2 }
  { g with human := g.human.add dealt.1 }

/-- Source `Presenter.prototype.drawCard`, going on after an empty deal. -/
def Game.drawCard (sh₁ sh₂ : Shuffle) (r : ℚ) (g : Game) : Option Game :=
  (g.humanDraws.updateDeckIfEmpty sh₁).bind (Game.playComputer sh₂ r)

/-- The statements of `playCard` that move an accepted card from the human's hand to the pile. -/
def Game.humanPlays (card : Card) (g : Game) : Game :=
  let g := { g with human := g.human.remove (g.human.indexOf card) }
  { g with pile := g.pile.acceptACard card }

/-- Source `Presenter.prototype.playCard`, going on after an empty deal. -/
def Game.playCard (sh₁ sh₂ : Shuffle) (r : ℚ) (cardString : String) (g : Game) : Option Game :=
  let found := g.human.find cardString
  if g.pile.isValidToPlay found then
    match found with
    | none => none
    | some card =>
      let g := g.humanPlays card
      let next : Option Game :=
        if (g.pile.getTopCard.map Card.getValue) = some Rank.eight then
          some g
        else if g.human.isHandEmpty then
          some g
        else
          g.playComputer sh₁ r
      next.bind (Game.updateDeckIfEmpty sh₂)
  else
    some g

/-- Source `Presenter.prototype.continueGameAfterSuitSelection`, going on after an empty deal. -/
def Game.continueGameAfterSuitSelection (sh₁ sh₂ : Shuffle) (r : ℚ) (suit : Suit) (g : Game) :
    Option Game :=
  let g := { g with pile := g.pile.setAnnouncedSuit suit }
  if g.human.isHandEmpty then
    some g
  else
    (g.updateDeckIfEmpty sh₁).bind (Game.playComputer sh₂ r)

/-- The state of `Presenter` seen without the display: every entry of a hand is a card. -/
def Presenter.toGame (s : Presenter) : Game :=
  { deck := s.deck
    pile := s.pile
    human := ⟨s.human.list.map some⟩
    computer := ⟨s.computer.list.map some⟩
    difficultyLevel := s.difficultyLevel }

/-- Carry out one call, going on after an empty deal. -/
def Game.call (g : Game) : Call → Option Game
  | .drawCard sh₁ sh₂ r => g.drawCard sh₁ sh₂ r
  | .playCard sh₁ sh₂ r cardString => g.playCard sh₁ sh₂ r cardString
  | .continueGameAfterSuitSelection sh₁ sh₂ r suit => g.continueGameAfterSuitSelection sh₁ sh₂ r suit
  | .setDifficulty level => some { g with difficultyLevel := level }

/-- Carry out a sequence of calls, going on after an empty deal. -/
def Game.run : Game → List Call → Option Game
  | g, [] => some g
  | g, c :: cs => (g.call c).bind fun g' => g'.run cs

/-- States reachable from a freshly constructed game by any sequence of calls, the calls that
deal from an empty deck included. -/
inductive Game.Reachable : Game → Prop where
  | start (shs : List Shuffle) (s : Presenter) : Presenter.new shs = some s →
      Game.Reachable s.toGame
  | step (g g' : Game) (c : Call) : Game.Reachable g → g.call c = some g' → Game.Reachable g'

/-- Number of entries held by the deck, the pile and the two hands together, `undefined`
entries counted. -/
def Game.total (g : Game) : Nat :=
  g.deck.list.length + g.pile.list.length + g.human.list.length + g.computer.list.length

/-- The nineteen draws of the human in the game `drainGame`. -/
def overdrawCalls : List Call := List.replicate 19 (Call.drawCard Shuffle.keep Shuffle.keep 0)

/-- The state after `overdrawCalls` when the program goes on after the empty deal: the computer
holds an `undefined` entry behind its 25 cards. -/
def overdrawnGame : Game :=
  { deck := ⟨[]⟩
    pile := ⟨drainDeck.take 1, none⟩
    human := ⟨((drainDeck.drop 1).take 7 ++ drainHumanDraws).map some⟩
    computer := ⟨((drainDeck.drop 8).take 7 ++ drainComputerDraws).map some ++ [none]⟩
    difficultyLevel := "medium" }

/-! ## Basic facts about the collaborators -/

theorem drainPile_eq (l acc : List Card) : drainPile l acc = acc ++ l := by
  induction l generalizing acc with
  | nil => simp [drainPile]
  | cons c rest ih => simp [drainPile, ih]

theorem isValidToPlay_none (p : Pile) : p.isValidToPlay none = false := rfl

theorem isValidToPlay_eight (p : Pile) (c : Card) (h : c.getValue = Rank.eight) :
    p.isValidToPlay (some c) = true := by
  unfold Pile.isValidToPlay
  cases p.getTopCard with
  | none => simp [h]
  | some t => by_cases ht : t.getValue = Rank.eight <;> simp [h, ht]

theorem isValidToPlay_isSome (p : Pile) (card : Option Card) (h : p.isValidToPlay card = true) :
    ∃ c, card = some c := by
  cases card with
  | none => simp [isValidToPlay_none] at h
  | some c => exact ⟨c, rfl⟩

theorem Card.toString_injective : ∀ c d : Card, c.toString = d.toString → c = d := by
  rintro ⟨v, s⟩ ⟨w, t⟩
  cases v <;> cases s <;> cases w <;> cases t <;> decide

theorem find_mem (cardString : String) (p : Player) (c : Card)
    (h : p.find cardString = some c) : c ∈ p.list ∧ c.toString = cardString := by
  unfold Player.find at h
  refine ⟨List.mem_of_find?_eq_some h, ?_⟩
  simpa using List.find?_some h

theorem find_toString (p : Player) (c : Card) (h : c ∈ p.list) :
    p.find c.toString = some c := by
  unfold Player.find
  generalize p.list = l at h
  induction l with
  | nil => simp at h
  | cons a l ih =>
    by_cases hac : a = c
    · subst hac; simp
    · have hne : (a.toString == c.toString) = false := by
        simpa using fun e => hac (Card.toString_injective a c e)
      have hc : c ∈ l := by
        rcases List.mem_cons.mp h with h | h
        · exact absurd h.symm hac
        · exact h
      rw [List.find?_cons, hne]
      exact ih hc

theorem find_none (cardString : String) (p : Player)
    (h : ∀ c ∈ p.list, c.toString ≠ cardString) : p.find cardString = none := by
  unfold Player.find
  simpa using h

theorem eraseIdx_indexOf (l : List Card) (c : Card) : l.eraseIdx (l.indexOf c) = l.erase c := by
  induction l with
  | nil => simp
  | cons a l ih =>
    by_cases hac : a = c
    · subst hac; simp
    · have hca : ¬ (a == c) = true := by simpa using hac
      simp [List.indexOf_cons, List.erase_cons, hca, ih]

theorem perm_cons_eraseIdx (l : List Card) (i : Nat) (c : Card) (h : l[i]? = some c) :
    List.Perm (c :: l.eraseIdx i) l := by
  induction l generalizing i with
  | nil => simp at h
  | cons a l ih =>
    cases i with
    | zero => simp at h; subst h; simp
    | succ i =>
      simp at h
      simpa using (List.Perm.swap a c (l.eraseIdx i)).trans ((ih i h).cons a)

/-! ## The search loop -/

theorem searchLoop_spec (pile : Pile) (hand : List Card) :
    ∀ fuel i : Nat, hand.length ≤ fuel + i + 1 →
      (∀ j : Nat, j < i → pile.isValidToPlay hand[j]? = false) →
      (searchLoop pile hand fuel i hand[i]?).2 = hand[(searchLoop pile hand fuel i hand[i]?).1]? ∧
      (∀ j : Nat, j < (searchLoop pile hand fuel i hand[i]?).1 → pile.isValidToPlay hand[j]? = false) ∧
      (pile.isValidToPlay (searchLoop pile hand fuel i hand[i]?).2 = false →
        ∀ j : Nat, pile.isValidToPlay hand[j]? = false) := by
  intro fuel
  induction fuel with
  | zero =>
    intro i hlen hbefore
    refine ⟨rfl, hbefore, ?_⟩
    intro hbad j
    simp only [searchLoop] at hbad
    rcases Nat.lt_trichotomy j i with hj | hj | hj
    · exact hbefore j hj
    · subst hj; exact hbad
    · have : hand[j]? = none := List.getElem?_eq_none (by omega)
      rw [this]; rfl
  | succ fuel ih =>
    intro i hlen hbefore
    by_cases hv : pile.isValidToPlay hand[i]? = true
    · simp only [searchLoop, hv]
      refine ⟨rfl, hbefore, ?_⟩
      intro hbad
      simp [hv] at hbad
    · have hv' : pile.isValidToPlay hand[i]? = false := by simpa using hv
      by_cases hi : (i : Int) < (hand.length : Int) - 1
      · have hstep : searchLoop pile hand (fuel + 1) i hand[i]?
            = searchLoop pile hand fuel (i + 1) hand[i + 1]? := by
          simp [searchLoop, hv', hi]
        rw [hstep]
        apply ih (i + 1) (by omega)
        intro j hj
        rcases Nat.lt_succ_iff_lt_or_eq.mp hj with h | h
        · exact hbefore j h
        · subst h; exact hv'
      · have hstop : searchLoop pile hand (fuel + 1) i hand[i]? = (i, hand[i]?) := by
          simp [searchLoop, hv', hi]
        rw [hstop]
        refine ⟨rfl, hbefore, ?_⟩
        intro _ j
        rcases Nat.lt_trichotomy j i with hj | hj | hj
        · exact hbefore j hj
        · subst hj; exact hv'
        · have : hand[j]? = none := List.getElem?_eq_none (by omega)
          rw [this]; rfl

theorem search_spec (pile : Pile) (hand : List Card) :
    (search pile hand).2 = hand[(search pile hand).1]? ∧
    (∀ j : Nat, j < (search pile hand).1 → pile.isValidToPlay hand[j]? = false) ∧
    (pile.isValidToPlay (search pile hand).2 = false →
      ∀ j : Nat, pile.isValidToPlay hand[j]? = false) :=
  searchLoop_spec pile hand hand.length 0 (by omega) (fun j hj => absurd hj (Nat.not_lt_zero j))

/-- The search stops at the first card of the hand that the pile accepts. -/
theorem search_first (pile : Pile) (hand : List Card) (k : Nat) (c : Card)
    (hk : hand[k]? = some c) (hc : pile.isValidToPlay (some c) = true)
    (hmin : ∀ j : Nat, j < k → pile.isValidToPlay hand[j]? = false) :
    search pile hand = (k, some c) := by
  obtain ⟨h1, h2, h3⟩ := search_spec pile hand
  have hvalid : pile.isValidToPlay (search pile hand).2 = true := by
    by_contra hbad
    have := h3 (by simpa using hbad) k
    rw [hk, hc] at this
    exact Bool.noConfusion this
  have hidx : (search pile hand).1 = k := by
    rcases Nat.lt_trichotomy (search pile hand).1 k with h | h | h
    · have := hmin _ h
      rw [← h1, hvalid] at this
      exact Bool.noConfusion this
    · exact h
    · have := h2 k h
      rw [hk, hc] at this
      exact Bool.noConfusion this
  have hcard : (search pile hand).2 = some c := by rw [h1, hidx, hk]
  exact Prod.ext hidx hcard

/-- The search leaves a card the pile rejects exactly when the pile accepts no card of the hand. -/
theorem search_none (pile : Pile) (hand : List Card)
    (hno : ∀ c ∈ hand, pile.isValidToPlay (some c) = false) :
    pile.isValidToPlay (search pile hand).2 = false := by
  obtain ⟨h1, _, _⟩ := search_spec pile hand
  rw [h1]
  cases h : hand[(search pile hand).1]? with
  | none => rfl
  | some c => exact hno c (List.getElem?_mem h)

theorem pick_spec (r : ℚ) (s : Presenter) :
    (s.pick r).2 = none ∨ (s.pick r).2 = s.computer.list[(s.pick r).1]? := by
  unfold Presenter.pick
  simp only [Player.getHandCopy]
  split
  · split
    · exact Or.inr (search_spec _ _).1
    · exact Or.inl rfl
  · split
    · exact Or.inr (search_spec _ _).1
    · exact Or.inl rfl
  · exact Or.inr (search_spec _ _).1
  · exact Or.inl rfl

theorem pick_medium (r : ℚ) (s : Presenter) (h : s.difficultyLevel = "medium") :
    s.pick r = search s.pile s.computer.list := by
  unfold Presenter.pick
  simp [h, Player.getHandCopy]

/-! ## What each step does to the cards -/

theorem updateDeck_cons (sh : Shuffle) (s : Presenter) (t : Card) (rest : List Card)
    (h : s.pile.list = t :: rest) :
    s.updateDeck sh = some { s with
      deck := ⟨sh.run rest⟩
      pile := ⟨[t], s.pile.announcedSuit⟩
      view := s.view ++ [Event.updateTable t] } := by
  unfold Presenter.updateDeck Pile.removeTopCard
  rw [h]
  simp [drainPile_eq, Pile.acceptACard, Deck.shuffle, Presenter.notify]

theorem updateDeck_nil (sh : Shuffle) (s : Presenter) (h : s.pile.list = []) :
    s.updateDeck sh = none := by
  unfold Presenter.updateDeck Pile.removeTopCard
  rw [h]

theorem updateDeckIfEmpty_keeps (sh : Shuffle) (s s' : Presenter)
    (h : s.updateDeckIfEmpty sh = some s') :
    List.Perm (s'.deck.list ++ s'.pile.list) (s.deck.list ++ s.pile.list) ∧
    s'.human = s.human ∧ s'.computer = s.computer ∧
    s'.difficultyLevel = s.difficultyLevel ∧
    s'.pile.announcedSuit = s.pile.announcedSuit ∧
    s'.pile.list.head? = s.pile.list.head? ∧
    (s.pile.list ≠ [] → s'.pile.list ≠ []) := by
  unfold Presenter.updateDeckIfEmpty at h
  by_cases hd : s.deck.list.length = 0
  · rw [if_pos hd] at h
    cases hp : s.pile.list with
    | nil => rw [updateDeck_nil sh s hp] at h; exact Option.noConfusion h
    | cons t rest =>
      rw [updateDeck_cons sh s t rest hp] at h
      injection h with h
      subst h
      have hd' : s.deck.list = [] := List.length_eq_zero.mp hd
      refine ⟨?_, rfl, rfl, rfl, rfl, rfl, fun _ => List.cons_ne_nil t []⟩
      rw [hd', List.nil_append]
      exact (List.perm_append_comm).trans ((sh.perm rest).cons t)
  · rw [if_neg hd] at h
    injection h with h
    subst h
    exact ⟨List.Perm.refl _, rfl, rfl, rfl, rfl, rfl, fun h => h⟩

theorem updateDeckIfEmpty_isSome (sh : Shuffle) (s : Presenter) (h : s.pile.list ≠ []) :
    ∃ s', s.updateDeckIfEmpty sh = some s' := by
  unfold Presenter.updateDeckIfEmpty
  by_cases hd : s.deck.list.length = 0
  · rw [if_pos hd]
    cases hp : s.pile.list with
    | nil => exact absurd hp h
    | cons t rest => exact ⟨_, updateDeck_cons sh s t rest hp⟩
  · rw [if_neg hd]; exact ⟨s, rfl⟩

theorem updateDeckIfEmpty_of_ne (sh : Shuffle) (s : Presenter) (h : s.deck.list ≠ []) :
    s.updateDeckIfEmpty sh = some s := by
  unfold Presenter.updateDeckIfEmpty
  rw [if_neg (fun e => h (List.length_eq_zero.mp e))]

theorem updateDeckIfEmpty_of_nil (sh : Shuffle) (s : Presenter) (t : Card) (rest : List Card)
    (h : s.deck.list = []) (hp : s.pile.list = t :: rest) :
    s.updateDeckIfEmpty sh = some { s with
      deck := ⟨sh.run rest⟩
      pile := ⟨[t], s.pile.announcedSuit⟩
      view := s.view ++ [Event.updateTable t] } := by
  unfold Presenter.updateDeckIfEmpty
  rw [if_pos (by rw [h]; rfl), updateDeck_cons sh s t rest hp]

theorem computerPlays_fields (i : Nat) (card : Card) (s : Presenter) :
    (s.computerPlays i card).deck = s.deck ∧
    (s.computerPlays i card).pile.list = card :: s.pile.list ∧
    (s.computerPlays i card).human = s.human ∧
    (s.computerPlays i card).computer.list = s.computer.list.eraseIdx i ∧
    (s.computerPlays i card).difficultyLevel = s.difficultyLevel := by
  unfold Presenter.computerPlays
  simp only [Presenter.notify, Pile.acceptACard, Pile.setAnnouncedSuit, Player.remove]
  refine ⟨?_, ?_, ?_, ?_, ?_⟩ <;> split <;> split <;> rfl

theorem computerDraws_cons (s : Presenter) (c : Card) (d : List Card) (h : s.deck.list = c :: d) :
    s.computerDraws = some { s with
      deck := ⟨d⟩
      computer := ⟨s.computer.list ++ [c]⟩
      view := s.view ++ [Event.addCardComputerHand c] } := by
  unfold Presenter.computerDraws Deck.dealACard
  rw [h]
  simp [Player.add, Presenter.notify]

theorem computerDraws_nil (s : Presenter) (h : s.deck.list = []) : s.computerDraws = none := by
  unfold Presenter.computerDraws Deck.dealACard
  rw [h]

theorem humanDraws_cons (s : Presenter) (c : Card) (d : List Card) (h : s.deck.list = c :: d) :
    s.humanDraws = some { s with
      deck := ⟨d⟩
      human := ⟨s.human.list ++ [c]⟩
      view := s.view ++ [Event.addCardPlayerHand c] } := by
  unfold Presenter.humanDraws Deck.dealACard
  rw [h]
  simp [Player.add, Presenter.notify]

theorem humanDraws_nil (s : Presenter) (h : s.deck.list = []) : s.humanDraws = none := by
  unfold Presenter.humanDraws Deck.dealACard
  rw [h]

theorem humanPlays_eq (card : Card) (s : Presenter) :
    s.humanPlays card = { s with
      human := ⟨s.human.list.erase card⟩
      pile := ⟨card :: s.pile.list, s.pile.announcedSuit⟩
      view := s.view ++ [Event.displayHumanHand (s.human.list.erase card),
        Event.displayPileTopCard card] } := by
  simp [Presenter.humanPlays, Presenter.notify, Player.remove, Player.indexOf, Pile.acceptACard,
    Player.getHandCopy, eraseIdx_indexOf]

theorem playCard_unknown (sh₁ sh₂ : Shuffle) (r : ℚ) (s : Presenter) (cardString : String)
    (h : ∀ c ∈ s.human.list, c.toString ≠ cardString) :
    s.playCard sh₁ sh₂ r cardString
      = some { s with view := s.view ++ [Event.alertInvalidCard] } := by
  unfold Presenter.playCard
  simp [find_none cardString s.human h, isValidToPlay_none, Presenter.notify]

theorem playComputer_cards (sh : Shuffle) (r : ℚ) (s s' : Presenter)
    (h : s.playComputer sh r = some s') :
    List.Perm s'.cards s.cards ∧ s'.human = s.human ∧
    s'.difficultyLevel = s.difficultyLevel ∧ (s.pile.list ≠ [] → s'.pile.list ≠ []) := by
  unfold Presenter.playComputer at h
  simp only at h
  cases hv : s.pile.isValidToPlay (s.pick r).2 with
  | true =>
    obtain ⟨c, hc⟩ := isValidToPlay_isSome _ _ hv
    rw [hv, hc] at h
    simp only [if_true, Option.some_bind] at h
    obtain ⟨hperm, hh, hcomp, hdiff, _, _, hne⟩ := updateDeckIfEmpty_keeps sh _ _ h
    obtain ⟨fd, fp, fh, fc, fdiff⟩ := computerPlays_fields (s.pick r).1 c s
    have hidx : s.computer.list[(s.pick r).1]? = some c := by
      rcases pick_spec r s with hp | hp
      · rw [hp] at hc; exact Option.noConfusion hc
      · rw [← hp, hc]
    have herase := perm_cons_eraseIdx _ _ _ hidx
    refine ⟨?_, hh.trans fh, hdiff.trans fdiff, fun _ => hne (by rw [fp]; exact List.cons_ne_nil _ _)⟩
    rw [List.perm_iff_count]
    intro a
    have e1 := hperm.count_eq a
    have e2 := herase.count_eq a
    rw [fd, fp] at e1
    simp only [Presenter.cards, List.count_append, List.count_cons, hh, fh, hcomp, fc] at e1 e2 ⊢
    omega
  | false =>
    rw [hv] at h
    simp only [Bool.false_eq_true, if_false] at h
    cases hd : s.deck.list with
    | nil => rw [computerDraws_nil s hd] at h; exact Option.noConfusion h
    | cons c d =>
      rw [computerDraws_cons s c d hd, Option.some_bind] at h
      obtain ⟨hperm, hh, hcomp, hdiff, _, _, hne⟩ := updateDeckIfEmpty_keeps sh _ _ h
      refine ⟨?_, hh, hdiff, hne⟩
      rw [List.perm_iff_count]
      intro a
      have e1 := hperm.count_eq a
      simp only [Presenter.cards, List.count_append, List.count_cons, hh, hcomp, hd,
        List.count_nil] at e1 ⊢
      omega

theorem drawCard_cards (sh₁ sh₂ : Shuffle) (r : ℚ) (s s' : Presenter)
    (h : s.drawCard sh₁ sh₂ r = some s') :
    List.Perm s'.cards s.cards ∧ (s.pile.list ≠ [] → s'.pile.list ≠ []) := by
  unfold Presenter.drawCard at h
  cases hd : s.deck.list with
  | nil => rw [humanDraws_nil s hd] at h; exact Option.noConfusion h
  | cons c d =>
    rw [humanDraws_cons s c d hd] at h
    simp only at h
    obtain ⟨m, hm, hplay⟩ := Option.bind_eq_some.mp h
    obtain ⟨hperm, hh, hcomp, _, _, _, hne⟩ := updateDeckIfEmpty_keeps sh₁ _ _ hm
    obtain ⟨hperm2, _, _, hne2⟩ := playComputer_cards sh₂ r m s' hplay
    refine ⟨?_, fun hp => hne2 (hne hp)⟩
    refine hperm2.trans ?_
    rw [List.perm_iff_count]
    intro a
    have e1 := hperm.count_eq a
    simp only [Presenter.cards, List.count_append, List.count_cons, hh, hcomp, hd,
      List.count_nil] at e1 ⊢
    omega

theorem playCard_cards (sh₁ sh₂ : Shuffle) (r : ℚ) (cardString : String) (s s' : Presenter)
    (h : s.playCard sh₁ sh₂ r cardString = some s') :
    List.Perm s'.cards s.cards ∧ (s.pile.list ≠ [] → s'.pile.list ≠ []) := by
  unfold Presenter.playCard at h
  simp only at h
  cases hv : s.pile.isValidToPlay (s.human.find cardString) with
  | false =>
    rw [hv] at h
    simp only [Bool.false_eq_true, if_false, Option.some.injEq] at h
    subst h
    exact ⟨List.Perm.refl _, fun hp => hp⟩
  | true =>
    obtain ⟨c, hc⟩ := isValidToPlay_isSome _ _ hv
    rw [hv, hc] at h
    simp only [if_true] at h
    obtain ⟨m, hm, hupd⟩ := Option.bind_eq_some.mp h
    obtain ⟨hperm, hh, hcomp, _, _, _, hne⟩ := updateDeckIfEmpty_keeps sh₂ _ _ hupd
    have hmem : c ∈ s.human.list := (find_mem _ _ _ hc).1
    have herase := List.perm_cons_erase hmem
    have hplayed : List.Perm (s.humanPlays c).cards s.cards := by
      rw [List.perm_iff_count]
      intro a
      have e2 := herase.count_eq a
      simp only [humanPlays_eq, Presenter.cards, List.count_append, List.count_cons] at e2 ⊢
      omega
    have hpne : (s.humanPlays c).pile.list ≠ [] := by simp [humanPlays_eq]
    have hmid : List.Perm m.cards s.cards ∧ m.pile.list ≠ [] := by
      split at hm
      · injection hm with hm; subst hm
        exact ⟨hplayed, hpne⟩
      · split at hm
        · injection hm with hm; subst hm
          exact ⟨hplayed, hpne⟩
        · obtain ⟨hp, _, _, hn⟩ := playComputer_cards sh₁ r _ m hm
          exact ⟨hp.trans hplayed, hn hpne⟩
    refine ⟨?_, fun _ => hne hmid.2⟩
    refine List.Perm.trans ?_ hmid.1
    rw [List.perm_iff_count]
    intro a
    have e1 := hperm.count_eq a
    simp only [Presenter.cards, List.count_append, hh, hcomp] at e1 ⊢
    omega

theorem continueGameAfterSuitSelection_cards (sh₁ sh₂ : Shuffle) (r : ℚ) (suit : Suit)
    (s s' : Presenter) (h : s.continueGameAfterSuitSelection sh₁ sh₂ r suit = some s') :
    List.Perm s'.cards s.cards ∧ (s.pile.list ≠ [] → s'.pile.list ≠ []) := by
  unfold Presenter.continueGameAfterSuitSelection at h
  simp only at h
  split at h
  · injection h with h; subst h
    exact ⟨List.Perm.refl _, fun hp => hp⟩
  · obtain ⟨m, hm, hplay⟩ := Option.bind_eq_some.mp h
    obtain ⟨hperm, hh, hcomp, _, _, _, hne⟩ := updateDeckIfEmpty_keeps sh₁ _ _ hm
    obtain ⟨hperm2, _, _, hne2⟩ := playComputer_cards sh₂ r m s' hplay
    refine ⟨?_, fun hp => hne2 (hne hp)⟩
    refine hperm2.trans ?_
    rw [List.perm_iff_count]
    intro a
    have e1 := hperm.count_eq a
    simp only [Presenter.cards, List.count_append, hh, hcomp, Pile.setAnnouncedSuit] at e1 ⊢
    omega

theorem call_cards (s s' : Presenter) (c : Call) (h : s.call c = some s') :
    List.Perm s'.cards s.cards ∧ (s.pile.list ≠ [] → s'.pile.list ≠ []) := by
  cases c with
  | drawCard sh₁ sh₂ r => exact drawCard_cards sh₁ sh₂ r s s' h
  | playCard sh₁ sh₂ r cardString => exact playCard_cards sh₁ sh₂ r cardString s s' h
  | continueGameAfterSuitSelection sh₁ sh₂ r suit =>
    exact continueGameAfterSuitSelection_cards sh₁ sh₂ r suit s s' h
  | setDifficulty level =>
    simp only [Presenter.call, Option.some.injEq] at h
    subst h
    exact ⟨List.Perm.refl _, fun hp => hp⟩

/-! ## The constructor -/

theorem shuffleUntilNoEight_spec (shs : List Shuffle) (d d' : Deck)
    (h : shuffleUntilNoEight shs d = some d') :
    List.Perm d'.list d.list ∧ d'.isTopCardAnEight = false := by
  induction shs generalizing d with
  | nil => exact Option.noConfusion h
  | cons sh rest ih =>
    simp only [shuffleUntilNoEight] at h
    split at h
    · obtain ⟨hp, ht⟩ := ih _ h
      exact ⟨hp.trans (sh.perm d.list), ht⟩
    · rename_i hnot
      injection h with h
      subst h
      exact ⟨sh.perm d.list, (Bool.not_eq_true _).mp hnot⟩

theorem deal_spec (n : Nat) (d : Deck) (p p' : Player) (d' : Deck)
    (h : Player.deal n d p = some (p', d')) :
    p'.list = p.list ++ d.list.take n ∧ d'.list = d.list.drop n ∧ n ≤ d.list.length := by
  induction n generalizing d p with
  | zero =>
    simp only [Player.deal, Option.some.injEq, Prod.mk.injEq] at h
    obtain ⟨h1, h2⟩ := h
    subst h1; subst h2
    simp
  | succ n ih =>
    cases hd : d.list with
    | nil => simp [Player.deal, Deck.dealACard, hd] at h
    | cons c rest =>
      simp only [Player.deal, Deck.dealACard, hd] at h
      obtain ⟨h1, h2, h3⟩ := ih _ _ h
      refine ⟨?_, ?_, ?_⟩
      · rw [h1]; simp [Player.add]
      · rw [h2]; simp
      · simpa using h3

theorem new_spec (shs : List Shuffle) (s : Presenter) (h : Presenter.new shs = some s) :
    ∃ l : List Card, List.Perm l Deck.new.list ∧
      s.pile.list = l.take 1 ∧ s.human.list = (l.drop 1).take 7 ∧
      s.computer.list = (l.drop 8).take 7 ∧ s.deck.list = l.drop 15 ∧
      s.pile.announcedSuit = none ∧ s.difficultyLevel = "medium" ∧ s.view = [] ∧
      (Deck.mk l).isTopCardAnEight = false := by
  unfold Presenter.new at h
  cases h0 : shuffleUntilNoEight shs Deck.new with
  | none => rw [h0] at h; exact Option.noConfusion h
  | some deck =>
    obtain ⟨hperm, htop⟩ := shuffleUntilNoEight_spec shs _ _ h0
    rw [h0] at h
    simp only at h
    cases hl : deck.list with
    | nil =>
      have := hperm.length_eq
      rw [hl] at this
      exact absurd this (by decide)
    | cons first rest =>
      simp only [Deck.dealACard, hl] at h
      cases h1 : Player.new ⟨rest⟩ with
      | none => rw [h1] at h; exact Option.noConfusion h
      | some hd1 =>
        obtain ⟨human, deck1⟩ := hd1
        rw [h1] at h
        simp only at h
        cases h2 : Player.new deck1 with
        | none => rw [h2] at h; exact Option.noConfusion h
        | some hd2 =>
          obtain ⟨computer, deck2⟩ := hd2
          rw [h2] at h
          simp only [Option.some.injEq] at h
          subst h
          obtain ⟨a1, a2, _⟩ := deal_spec 7 _ _ _ _ h1
          obtain ⟨b1, b2, _⟩ := deal_spec 7 _ _ _ _ h2
          refine ⟨deck.list, hperm, ?_, ?_, ?_, ?_, rfl, rfl, rfl, htop⟩
          · simp [hl, Pile.new, Pile.acceptACard]
          · simp [hl, a1]
          · simp only [b1, a2, hl, List.nil_append]
            simp [List.drop_drop]
          · simp only [b2, a2, hl]
            simp [List.drop_drop]

theorem new_cards (shs : List Shuffle) (s : Presenter) (h : Presenter.new shs = some s) :
    List.Perm s.cards Deck.new.list ∧ s.pile.list ≠ [] := by
  obtain ⟨l, hperm, hp, hh, hc, hd, _⟩ := new_spec shs s h
  have e3 : (l.drop 8).take 7 ++ l.drop 15 = l.drop 8 := by
    simpa [List.drop_drop] using List.take_append_drop 7 (l.drop 8)
  have e2 : (l.drop 1).take 7 ++ l.drop 8 = l.drop 1 := by
    simpa [List.drop_drop] using List.take_append_drop 7 (l.drop 1)
  have e : l = l.take 1 ++ ((l.drop 1).take 7 ++ ((l.drop 8).take 7 ++ l.drop 15)) := by
    rw [e3, e2, List.take_append_drop]
  have hlen : l.length = 52 := hperm.length_eq
  refine ⟨List.Perm.trans ?_ hperm, ?_⟩
  · rw [List.perm_iff_count]
    intro a
    have := congrArg (List.count a) e
    simp only [Presenter.cards, hp, hh, hc, hd, List.count_append] at this ⊢
    omega
  · rw [hp]
    intro hnil
    have := congrArg List.length hnil
    simp [hlen] at this

theorem reachable_cards (s : Presenter) (h : Reachable s) :
    List.Perm s.cards Deck.new.list ∧ s.pile.list ≠ [] := by
  induction h with
  | start shs s hs => exact new_cards shs s hs
  | step s s' c _ hc ih =>
    obtain ⟨hp, hn⟩ := call_cards s s' c hc
    exact ⟨hp.trans ih.1, hn ih.2⟩

theorem total_eq_length (s : Presenter) : s.total = s.cards.length := by
  simp only [Presenter.total, Presenter.cards, List.length_append]

/-! ## The computer's turn -/

theorem playComputer_of_valid (sh : Shuffle) (r : ℚ) (s : Presenter) (i : Nat) (c : Card)
    (hp : s.pick r = (i, some c)) (hv : s.pile.isValidToPlay (some c) = true) :
    s.playComputer sh r = (s.computerPlays i c).updateDeckIfEmpty sh := by
  unfold Presenter.playComputer
  simp [hp, hv]

theorem playComputer_of_invalid (sh : Shuffle) (r : ℚ) (s : Presenter)
    (hv : s.pile.isValidToPlay (s.pick r).2 = false) :
    s.playComputer sh r = s.computerDraws.bind (Presenter.updateDeckIfEmpty sh) := by
  unfold Presenter.playComputer
  simp [hv]

theorem playComputer_isSome (sh : Shuffle) (r : ℚ) (s : Presenter)
    (hd : s.deck.list ≠ []) (hp : s.pile.list ≠ []) : ∃ s', s.playComputer sh r = some s' := by
  cases hv : s.pile.isValidToPlay (s.pick r).2 with
  | true =>
    obtain ⟨c, hc⟩ := isValidToPlay_isSome _ _ hv
    have hpick : s.pick r = ((s.pick r).1, some c) := Prod.ext rfl hc
    rw [playComputer_of_valid sh r s _ c hpick (by rw [← hc]; exact hv)]
    apply updateDeckIfEmpty_isSome
    rw [(computerPlays_fields _ c s).2.1]
    exact List.cons_ne_nil _ _
  | false =>
    rw [playComputer_of_invalid sh r s hv]
    cases hl : s.deck.list with
    | nil => exact absurd hl hd
    | cons d ds =>
      rw [computerDraws_cons s d ds hl, Option.some_bind]
      exact updateDeckIfEmpty_isSome sh _ hp

/-! ## The human's draw -/

theorem drawCard_eq (sh₁ sh₂ : Shuffle) (r : ℚ) (s : Presenter) (c : Card) (d : List Card)
    (hd : s.deck.list = c :: d) :
    s.drawCard sh₁ sh₂ r
      = (Presenter.updateDeckIfEmpty sh₁ { s with
          deck := ⟨d⟩
          human := ⟨s.human.list ++ [c]⟩
          view := s.view ++ [Event.addCardPlayerHand c] }).bind (Presenter.playComputer sh₂ r) := by
  unfold Presenter.drawCard
  rw [humanDraws_cons s c d hd]

theorem drawCard_human (sh₁ sh₂ : Shuffle) (r : ℚ) (s s' : Presenter) (c : Card) (d : List Card)
    (hd : s.deck.list = c :: d) (h : s.drawCard sh₁ sh₂ r = some s') :
    s'.human.list = s.human.list ++ [c] := by
  rw [drawCard_eq sh₁ sh₂ r s c d hd] at h
  obtain ⟨m, hm, hplay⟩ := Option.bind_eq_some.mp h
  obtain ⟨_, hh, _⟩ := updateDeckIfEmpty_keeps sh₁ _ _ hm
  obtain ⟨_, hh2, _⟩ := playComputer_cards sh₂ r m s' hplay
  rw [hh2, hh]

theorem drawCard_isSome (sh₁ sh₂ : Shuffle) (r : ℚ) (s : Presenter) (c : Card) (d : List Card)
    (hd : s.deck.list = c :: d) (hp : s.pile.list ≠ [])
    (hleft : d ≠ [] ∨ 2 ≤ s.pile.list.length) :
    ∃ s', s.drawCard sh₁ sh₂ r = some s' := by
  rw [drawCard_eq sh₁ sh₂ r s c d hd]
  obtain ⟨m, hm, md, mp⟩ : ∃ m : Presenter, m = { s with
      deck := ⟨d⟩
      human := ⟨s.human.list ++ [c]⟩
      view := s.view ++ [Event.addCardPlayerHand c] } ∧ m.deck.list = d ∧ m.pile = s.pile :=
    ⟨_, rfl, rfl, rfl⟩
  rw [← hm]
  by_cases hdn : d = []
  · obtain ⟨t, rest, hl⟩ := List.exists_cons_of_ne_nil hp
    have hrest : rest ≠ [] := by
      rcases hleft with h | h
      · exact absurd hdn h
      · intro hr
        rw [hl, hr] at h
        simp at h
    rw [updateDeckIfEmpty_of_nil sh₁ m t rest (by rw [md]; exact hdn) (by rw [mp]; exact hl),
      Option.some_bind]
    apply playComputer_isSome
    · intro hnil
      have hlen := (sh₁.perm rest).length_eq
      have hnil' : sh₁.run rest = [] := hnil
      rw [hnil'] at hlen
      exact hrest (List.length_eq_zero.mp hlen.symm)
    · exact List.cons_ne_nil _ _
  · rw [updateDeckIfEmpty_of_ne sh₁ m (by rw [md]; exact hdn), Option.some_bind]
    exact playComputer_isSome sh₂ r m (by rw [md]; exact hdn) (by rw [mp]; exact hp)

/-! ## Reachable games -/

theorem freshGame_new : Presenter.new [Shuffle.flip] = some freshGame := by decide

theorem freshGame_reachable : Reachable freshGame :=
  Reachable.start [Shuffle.flip] freshGame freshGame_new

theorem reachable_run (s s' : Presenter) (cs : List Call) (h : Reachable s)
    (hrun : s.run cs = some s') : Reachable s' := by
  induction cs generalizing s with
  | nil =>
    simp only [Presenter.run, Option.some.injEq] at hrun
    subst hrun
    exact h
  | cons c cs ih =>
    simp only [Presenter.run] at hrun
    obtain ⟨m, hm, hrest⟩ := Option.bind_eq_some.mp hrun
    exact ih m (Reachable.step s m c h hm) hrest

theorem stackedGame_new : Presenter.new [Shuffle.stack stackedDeck] = some stackedGame := by
  decide

theorem wonGame_run : stackedGame.run wonCalls = some wonGame := by decide

theorem wonGame_reachable : Reachable wonGame :=
  reachable_run stackedGame wonGame wonCalls
    (Reachable.start [Shuffle.stack stackedDeck] stackedGame stackedGame_new) wonGame_run

/-! ## Claims -/

/-- Conservation along calls that return a state in the first embedding, that is, as long as no
call deals from an empty deck: the deck, the pile and the two hands hold 52 entries together. -/
theorem reachable_total (s : Presenter) (h : Reachable s) : s.total = 52 := by
  rw [total_eq_length, (reachable_cards s h).1.length_eq]
  rfl

/-- C2. Reshuffle postcondition: from a state with an empty deck and a non-empty pile,
`updateDeck` returns a state whose pile holds exactly one card, the former top card, and whose
deck is a permutation of the former non-top cards of the pile; deck and pile together hold the
same cards as before, and the hands are untouched. -/
theorem C2_updateDeck_postcondition (sh : Shuffle) (s : Presenter)
    (hdeck : s.deck.list = []) (hpile : s.pile.list ≠ []) :
    ∃ s', s.updateDeck sh = some s' ∧
      s'.pile.list.length = 1 ∧ s'.pile.getTopCard = s.pile.getTopCard ∧
      List.Perm s'.deck.list s.pile.list.tail ∧
      List.Perm (s'.deck.list ++ s'.pile.list) (s.deck.list ++ s.pile.list) ∧
      s'.human = s.human ∧ s'.computer = s.computer := by
  cases hp : s.pile.list with
  | nil => exact absurd hp hpile
  | cons t rest =>
    refine ⟨_, updateDeck_cons sh s t rest hp, rfl, ?_, sh.perm rest, ?_, rfl, rfl⟩
    · simp [Pile.getTopCard, hp]
    · rw [hdeck, List.nil_append]
      exact (List.perm_append_comm).trans ((sh.perm rest).cons t)

theorem C2_updateDeck_postcondition_witness :
    emptyDeckGame.deck.list = [] ∧ emptyDeckGame.pile.list ≠ [] ∧
    ∃ s', emptyDeckGame.updateDeck Shuffle.flip = some s' ∧
      s'.pile.list.length = 1 ∧ s'.pile.getTopCard = emptyDeckGame.pile.getTopCard ∧
      List.Perm s'.deck.list emptyDeckGame.pile.list.tail ∧
      List.Perm (s'.deck.list ++ s'.pile.list)
        (emptyDeckGame.deck.list ++ emptyDeckGame.pile.list) ∧
      s'.human = emptyDeckGame.human ∧ s'.computer = emptyDeckGame.computer :=
  ⟨rfl, by decide, C2_updateDeck_postcondition Shuffle.flip emptyDeckGame rfl (by decide)⟩

/-- C3. Rejected play is atomic: when the human names a card of the hand that the pile does not
accept, `playCard` signals the invalid move and returns the state it was given with nothing but
that signal added: deck, pile, announced suit and both hands are unchanged, and no turn of the
computer has run. -/
theorem C3_rejected_play_atomic (sh₁ sh₂ : Shuffle) (r : ℚ) (s : Presenter) (c : Card)
    (hc : c ∈ s.human.list) (hv : s.pile.isValidToPlay (some c) = false) :
    s.playCard sh₁ sh₂ r c.toString
      = some { s with view := s.view ++ [Event.alertInvalidCard] } := by
  unfold Presenter.playCard
  simp [find_toString s.human c hc, hv, Presenter.notify]

theorem C3_rejected_play_atomic_witness :
    (⟨.two, .spades⟩ : Card) ∈ emptyDeckGame.human.list ∧
    emptyDeckGame.pile.isValidToPlay (some ⟨.two, .spades⟩) = false ∧
    emptyDeckGame.playCard Shuffle.keep Shuffle.keep 0 (Card.toString ⟨.two, .spades⟩)
      = some { emptyDeckGame with view := emptyDeckGame.view ++ [Event.alertInvalidCard] } :=
  ⟨by decide, by decide,
    C3_rejected_play_atomic Shuffle.keep Shuffle.keep 0 emptyDeckGame ⟨.two, .spades⟩
      (by decide) (by decide)⟩

/-- C4. Unknown card is an invalid move: when the identifier matches no card of the human's
hand, `playCard` returns normally, signals the invalid move, and leaves deck, pile and both
hands unchanged. -/
theorem C4_unknown_card_invalid (sh₁ sh₂ : Shuffle) (r : ℚ) (s : Presenter) (cardString : String)
    (h : ∀ c ∈ s.human.list, c.toString ≠ cardString) :
    s.playCard sh₁ sh₂ r cardString
      = some { s with view := s.view ++ [Event.alertInvalidCard] } := by
  unfold Presenter.playCard
  simp [find_none cardString s.human h, isValidToPlay_none, Presenter.notify]

theorem C4_unknown_card_invalid_witness :
    (∀ c ∈ emptyDeckGame.human.list, c.toString ≠ "joker") ∧
    emptyDeckGame.playCard Shuffle.keep Shuffle.keep 0 "joker"
      = some { emptyDeckGame with view := emptyDeckGame.view ++ [Event.alertInvalidCard] } :=
  ⟨by decide, C4_unknown_card_invalid Shuffle.keep Shuffle.keep 0 emptyDeckGame "joker" (by decide)⟩

/-- C5. Medium strategy is first-fit: at difficulty `medium`, `playComputer` plays the card at
the smallest index of the computer's hand that the pile accepts: that card leaves the hand, the
other cards keep their order, and it is the top of the pile afterwards; nothing else joins deck
and pile. If the pile accepts no card of the hand, nothing is played and the top card of the
deck is added to the computer's hand (a state results as long as the deck keeps a card or the
pile has one to refill from). -/
theorem C5_medium_first_fit (sh : Shuffle) (r : ℚ) (s : Presenter)
    (hm : s.difficultyLevel = "medium") :
    (∀ (k : Nat) (c : Card), s.computer.list[k]? = some c →
      s.pile.isValidToPlay (some c) = true →
      (∀ j : Nat, j < k → s.pile.isValidToPlay s.computer.list[j]? = false) →
      ∃ s', s.playComputer sh r = some s' ∧
        s'.computer.list = s.computer.list.eraseIdx k ∧
        s'.pile.getTopCard = some c ∧ s'.human = s.human ∧
        List.Perm (s'.deck.list ++ s'.pile.list) (s.deck.list ++ c :: s.pile.list)) ∧
    ((∀ c ∈ s.computer.list, s.pile.isValidToPlay (some c) = false) →
      ∀ (d : Card) (ds : List Card), s.deck.list = d :: ds → ds ≠ [] ∨ s.pile.list ≠ [] →
      ∃ s', s.playComputer sh r = some s' ∧
        s'.computer.list = s.computer.list ++ [d] ∧
        s'.pile.getTopCard = s.pile.getTopCard ∧ s'.human = s.human ∧
        List.Perm (s'.deck.list ++ s'.pile.list) (ds ++ s.pile.list)) := by
  constructor
  · intro k c hk hc hmin
    have hpick : s.pick r = (k, some c) := by
      rw [pick_medium r s hm]
      exact search_first s.pile s.computer.list k c hk hc hmin
    obtain ⟨fd, fp, fh, fc, _⟩ := computerPlays_fields k c s
    have hne : (s.computerPlays k c).pile.list ≠ [] := by rw [fp]; exact List.cons_ne_nil _ _
    obtain ⟨s', hs'⟩ := updateDeckIfEmpty_isSome sh _ hne
    obtain ⟨hperm, hh, hcomp, _, _, htop, _⟩ := updateDeckIfEmpty_keeps sh _ _ hs'
    refine ⟨s', ?_, ?_, ?_, hh.trans fh, ?_⟩
    · rw [playComputer_of_valid sh r s k c hpick hc, hs']
    · rw [hcomp, fc]
    · unfold Pile.getTopCard; rw [htop, fp]; rfl
    · rw [fd, fp] at hperm; exact hperm
  · intro hno d ds hd hleft
    have hv : s.pile.isValidToPlay (s.pick r).2 = false := by
      rw [pick_medium r s hm]
      exact search_none s.pile s.computer.list hno
    have hstep := playComputer_of_invalid sh r s hv
    obtain ⟨m, hm1, md, mp, mh, mc⟩ : ∃ m, s.computerDraws = some m ∧ m.deck.list = ds ∧
        m.pile = s.pile ∧ m.human = s.human ∧ m.computer.list = s.computer.list ++ [d] :=
      ⟨_, computerDraws_cons s d ds hd, rfl, rfl, rfl, rfl⟩
    rw [hm1, Option.some_bind] at hstep
    obtain ⟨s', hs'⟩ : ∃ s', m.updateDeckIfEmpty sh = some s' := by
      rcases hleft with h | h
      · exact ⟨m, updateDeckIfEmpty_of_ne sh m (by rw [md]; exact h)⟩
      · exact updateDeckIfEmpty_isSome sh m (by rw [mp]; exact h)
    obtain ⟨hperm, hh, hcomp, _, _, htop, _⟩ := updateDeckIfEmpty_keeps sh _ _ hs'
    refine ⟨s', ?_, ?_, ?_, hh.trans mh, ?_⟩
    · rw [hstep]; exact hs'
    · rw [hcomp, mc]
    · unfold Pile.getTopCard; rw [htop, mp]
    · rw [md, mp] at hperm; exact hperm

theorem C5_medium_first_fit_witness :
    (emptyDeckGame.difficultyLevel = "medium" ∧
      ∃ s', emptyDeckGame.playComputer Shuffle.flip 0 = some s' ∧
        s'.computer.list = emptyDeckGame.computer.list.eraseIdx 1 ∧
        s'.pile.getTopCard = some ⟨.four, .diamonds⟩ ∧ s'.human = emptyDeckGame.human ∧
        List.Perm (s'.deck.list ++ s'.pile.list)
          (emptyDeckGame.deck.list ++ ⟨.four, .diamonds⟩ :: emptyDeckGame.pile.list)) ∧
    (stuckGame.difficultyLevel = "medium" ∧
      ∃ s', stuckGame.playComputer Shuffle.flip 0 = some s' ∧
        s'.computer.list = stuckGame.computer.list ++ [⟨.five, .clubs⟩] ∧
        s'.pile.getTopCard = stuckGame.pile.getTopCard ∧ s'.human = stuckGame.human ∧
        List.Perm (s'.deck.list ++ s'.pile.list)
          ([⟨.jack, .spades⟩] ++ stuckGame.pile.list)) :=
  ⟨⟨rfl,
    (C5_medium_first_fit Shuffle.flip 0 emptyDeckGame rfl).1 1 ⟨.four, .diamonds⟩
      rfl (by decide) (by decide)⟩,
   ⟨rfl,
    (C5_medium_first_fit Shuffle.flip 0 stuckGame rfl).2 (by decide)
      ⟨.five, .clubs⟩ [⟨.jack, .spades⟩] rfl (Or.inl (by decide))⟩⟩

/-- C6. Human eight suspends the turn: when the human names an eight of the hand, `playCard`
takes it out of the hand, makes it the top card of the pile and asks for the suit; the computer
does not move. The resulting state is the human's play followed only by the refill of an empty
deck: the computer's hand is unchanged, the pile is the eight on the old pile (or the eight
alone after a refill), and the display was told of nothing but the human's play, the suit
picker and the refill. -/
theorem C6_human_eight_suspends (sh₁ sh₂ : Shuffle) (r : ℚ) (s : Presenter) (c : Card)
    (hc : c ∈ s.human.list) (h8 : c.getValue = Rank.eight) :
    ∃ s', s.playCard sh₁ sh₂ r c.toString = some s' ∧
      s'.human.list = s.human.list.erase c ∧
      s'.pile.getTopCard = some c ∧
      s'.pile.list = (if s.deck.list = [] then [c] else c :: s.pile.list) ∧
      s'.computer = s.computer ∧
      s'.view = s.view ++ [Event.displayHumanHand (s.human.list.erase c),
        Event.displayPileTopCard c, Event.displaySuitPicker]
        ++ (if s.deck.list = [] then [Event.updateTable c] else []) := by
  have hv := isValidToPlay_eight s.pile c h8
  have hstep : s.playCard sh₁ sh₂ r c.toString
      = ((s.humanPlays c).notify Event.displaySuitPicker).updateDeckIfEmpty sh₂ := by
    unfold Presenter.playCard
    simp only [find_toString s.human c hc, hv, if_true]
    have htop : ((s.humanPlays c).pile.getTopCard.map Card.getValue) = some Rank.eight := by
      simp [humanPlays_eq, Pile.getTopCard, h8]
    rw [if_pos htop, Option.some_bind]
  rw [hstep]
  by_cases hd : s.deck.list = []
  · rw [updateDeckIfEmpty_of_nil sh₂ _ c s.pile.list
      (by simpa [humanPlays_eq, Presenter.notify] using hd)
      (by simp [humanPlays_eq, Presenter.notify])]
    refine ⟨_, rfl, ?_, ?_, ?_, ?_, ?_⟩ <;>
      simp [humanPlays_eq, Presenter.notify, Pile.getTopCard, hd]
  · rw [updateDeckIfEmpty_of_ne sh₂ _ (by simpa [humanPlays_eq, Presenter.notify] using hd)]
    refine ⟨_, rfl, ?_, ?_, ?_, ?_, ?_⟩ <;>
      simp [humanPlays_eq, Presenter.notify, Pile.getTopCard, hd]

theorem C6_human_eight_suspends_witness :
    (⟨.eight, .hearts⟩ : Card) ∈ eightGame.human.list ∧
    Card.getValue ⟨.eight, .hearts⟩ = Rank.eight ∧
    ∃ s', eightGame.playCard Shuffle.keep Shuffle.keep 0 (Card.toString ⟨.eight, .hearts⟩)
        = some s' ∧
      s'.human.list = eightGame.human.list.erase ⟨.eight, .hearts⟩ ∧
      s'.pile.getTopCard = some ⟨.eight, .hearts⟩ ∧
      s'.pile.list = (if eightGame.deck.list = [] then [⟨.eight, .hearts⟩]
        else ⟨.eight, .hearts⟩ :: eightGame.pile.list) ∧
      s'.computer = eightGame.computer ∧
      s'.view = eightGame.view ++ [Event.displayHumanHand
          (eightGame.human.list.erase ⟨.eight, .hearts⟩),
        Event.displayPileTopCard ⟨.eight, .hearts⟩, Event.displaySuitPicker]
        ++ (if eightGame.deck.list = [] then [Event.updateTable ⟨.eight, .hearts⟩] else []) :=
  ⟨by decide, rfl,
    C6_human_eight_suspends Shuffle.keep Shuffle.keep 0 eightGame ⟨.eight, .hearts⟩
      (by decide) rfl⟩

/-- C7. Suit selection resumes the turn: with an eight on top of the pile,
`continueGameAfterSuitSelection(suit)` first sets the announced suit. If the human's hand is
empty it announces the human as winner and nothing else changes: the computer does not move.
Otherwise the call is one `playComputer`, run after the refill of an empty deck, on a state whose
announced suit is the chosen suit and whose top card is the same eight, so that a card is
accepted there exactly when its suit is the chosen suit or it is an eight; and that turn
returns a state whenever the deck is not empty by then. -/
theorem C7_suit_selection_resumes (sh₁ sh₂ : Shuffle) (r : ℚ) (suit : Suit) (s : Presenter)
    (h8 : s.pile.getTopCard.map Card.getValue = some Rank.eight) :
    (s.human.list = [] →
      s.continueGameAfterSuitSelection sh₁ sh₂ r suit = some { s with
        pile := ⟨s.pile.list, some suit⟩
        view := s.view ++ [Event.announceHumanWinner] }) ∧
    (s.human.list ≠ [] →
      ∃ mid, Presenter.updateDeckIfEmpty sh₁ { s with pile := ⟨s.pile.list, some suit⟩ } = some mid ∧
        s.continueGameAfterSuitSelection sh₁ sh₂ r suit = mid.playComputer sh₂ r ∧
        mid.pile.announcedSuit = some suit ∧ mid.pile.getTopCard = s.pile.getTopCard ∧
        mid.human = s.human ∧ mid.computer = s.computer ∧
        (∀ c : Card, mid.pile.isValidToPlay (some c)
          = (decide (c.getSuit = suit) || decide (c.getValue = Rank.eight))) ∧
        (mid.deck.list ≠ [] → ∃ s', s.continueGameAfterSuitSelection sh₁ sh₂ r suit = some s')) := by
  obtain ⟨t, ht, ht8⟩ : ∃ t, s.pile.getTopCard = some t ∧ t.getValue = Rank.eight := by
    cases hp : s.pile.getTopCard with
    | none => rw [hp] at h8; exact Option.noConfusion h8
    | some t => rw [hp] at h8; exact ⟨t, rfl, by simpa using h8⟩
  have hne : s.pile.list ≠ [] := by
    intro hnil
    simp [Pile.getTopCard, hnil] at ht
  constructor
  · intro hh
    unfold Presenter.continueGameAfterSuitSelection
    simp [Player.isHandEmpty, hh, Presenter.notify, Pile.setAnnouncedSuit]
  · intro hh
    obtain ⟨mid, hmid⟩ := updateDeckIfEmpty_isSome sh₁
      { s with pile := ⟨s.pile.list, some suit⟩ } hne
    obtain ⟨_, mh, mc, _, ma, mt, mne⟩ := updateDeckIfEmpty_keeps sh₁ _ _ hmid
    have hcall : s.continueGameAfterSuitSelection sh₁ sh₂ r suit = mid.playComputer sh₂ r := by
      unfold Presenter.continueGameAfterSuitSelection
      have : s.human.list.isEmpty = false := by
        cases hl : s.human.list with
        | nil => exact absurd hl hh
        | cons a l => rfl
      simp only [Player.isHandEmpty, Pile.setAnnouncedSuit, this, Bool.false_eq_true, if_false]
      rw [hmid, Option.some_bind]
    have mtop : mid.pile.getTopCard = some t := by
      unfold Pile.getTopCard at ht ⊢
      rw [mt]; exact ht
    refine ⟨mid, hmid, hcall, ma, by rw [mtop, ht], mh, mc, ?_, ?_⟩
    · intro c
      have ma' : mid.pile.announcedSuit = some suit := ma
      simp only [Pile.isValidToPlay, mtop, ht8, if_true, ma']
      by_cases hs : c.getSuit = suit
      · simp [hs]
      · have : ¬ suit = c.getSuit := fun e => hs e.symm
        have hb : (some suit == some c.getSuit) = false := by
          rw [beq_eq_false_iff_ne]
          exact fun e => this (Option.some.inj e)
        rw [hb]
        simp only [hs, decide_False, Bool.false_or]
        rfl
    · intro hd
      rw [hcall]
      exact playComputer_isSome sh₂ r mid hd (mne hne)

theorem C7_suit_selection_resumes_witness :
    suitPendingGame.pile.getTopCard.map Card.getValue = some Rank.eight ∧
    suitPendingGame.human.list ≠ [] ∧
    ∃ mid, Presenter.updateDeckIfEmpty Shuffle.keep
        { suitPendingGame with pile := ⟨suitPendingGame.pile.list, some Suit.clubs⟩ } = some mid ∧
      suitPendingGame.continueGameAfterSuitSelection Shuffle.keep Shuffle.keep 0 Suit.clubs
        = mid.playComputer Shuffle.keep 0 ∧
      mid.pile.announcedSuit = some Suit.clubs ∧
      mid.pile.getTopCard = suitPendingGame.pile.getTopCard ∧
      mid.human = suitPendingGame.human ∧ mid.computer = suitPendingGame.computer ∧
      (∀ c : Card, mid.pile.isValidToPlay (some c)
        = (decide (c.getSuit = Suit.clubs) || decide (c.getValue = Rank.eight))) ∧
      (mid.deck.list ≠ [] → ∃ s',
        suitPendingGame.continueGameAfterSuitSelection Shuffle.keep Shuffle.keep 0 Suit.clubs
          = some s') :=
  ⟨rfl, by decide,
    (C7_suit_selection_resumes Shuffle.keep Shuffle.keep 0 Suit.clubs suitPendingGame rfl).2
      (by decide)⟩

/-- C8, counterexample. The human holds one last card, the nine of spades, which the pile
accepts, and the deck is empty: `playCard` ends with the refill, so the deck does not stay as it
was (it receives the five of spades from the pile). -/
theorem C8_deck_unchanged_counterexample :
    lastCardGame.human.list = [⟨.nine, .spades⟩] ∧
    lastCardGame.pile.isValidToPlay (some ⟨.nine, .spades⟩) = true ∧
    Card.getValue ⟨.nine, .spades⟩ ≠ Rank.eight ∧
    lastCardGame.playCard Shuffle.keep Shuffle.keep 0 (Card.toString ⟨.nine, .spades⟩)
      = some { deck := ⟨[⟨.five, .spades⟩]⟩
               pile := ⟨[⟨.nine, .spades⟩], none⟩
               human := ⟨[]⟩
               computer := ⟨[⟨.king, .diamonds⟩, ⟨.two, .hearts⟩]⟩
               view := [Event.displayHumanHand [], Event.displayPileTopCard ⟨.nine, .spades⟩,
                 Event.announceHumanWinner, Event.updateTable ⟨.nine, .spades⟩]
               difficultyLevel := "medium" } ∧
    (⟨[⟨.five, .spades⟩]⟩ : Deck) ≠ lastCardGame.deck := by
  decide

/-- C8, amended. Winner detection: when the human holds exactly one card, the pile accepts it and
it is not an eight, `playCard` empties the human's hand, puts the card on top of the pile and
announces the human as winner; `playComputer` is not run, so the computer's hand is unchanged
and the display hears of nothing else but a refill. A deck that is not empty is unchanged; an
empty deck is refilled: the former pile, shuffled, becomes the deck and the played card is
alone on the pile. -/
theorem C8_winner_detection (sh₁ sh₂ : Shuffle) (r : ℚ) (s : Presenter) (c : Card)
    (hh : s.human.list = [c]) (hv : s.pile.isValidToPlay (some c) = true)
    (h8 : c.getValue ≠ Rank.eight) :
    ∃ s', s.playCard sh₁ sh₂ r c.toString = some s' ∧
      s'.human.list = [] ∧ s'.pile.getTopCard = some c ∧ s'.computer = s.computer ∧
      s'.view = s.view ++ [Event.displayHumanHand [], Event.displayPileTopCard c,
        Event.announceHumanWinner] ++ (if s.deck.list = [] then [Event.updateTable c] else []) ∧
      (s.deck.list ≠ [] → s'.deck = s.deck ∧ s'.pile.list = c :: s.pile.list) ∧
      (s.deck.list = [] → s'.pile.list = [c] ∧ List.Perm s'.deck.list s.pile.list) := by
  have hc : c ∈ s.human.list := by rw [hh]; exact List.mem_singleton.mpr rfl
  have herase : s.human.list.erase c = [] := by rw [hh]; simp
  have hstep : s.playCard sh₁ sh₂ r c.toString
      = ((s.humanPlays c).notify Event.announceHumanWinner).updateDeckIfEmpty sh₂ := by
    unfold Presenter.playCard
    simp only [find_toString s.human c hc, hv, if_true]
    have htop : ¬ ((s.humanPlays c).pile.getTopCard.map Card.getValue) = some Rank.eight := by
      simpa [humanPlays_eq, Pile.getTopCard] using h8
    have hempty : (s.humanPlays c).human.isHandEmpty = true := by
      simp [humanPlays_eq, Player.isHandEmpty, herase]
    rw [if_neg htop, if_pos hempty, Option.some_bind]
  rw [hstep]
  by_cases hd : s.deck.list = []
  · rw [updateDeckIfEmpty_of_nil sh₂ _ c s.pile.list
      (by simpa [humanPlays_eq, Presenter.notify] using hd)
      (by simp [humanPlays_eq, Presenter.notify])]
    refine ⟨_, rfl, ?_, ?_, ?_, ?_, ?_, ?_⟩
    · simp [humanPlays_eq, Presenter.notify, herase]
    · simp [Pile.getTopCard]
    · simp [humanPlays_eq, Presenter.notify]
    · simp [humanPlays_eq, Presenter.notify, herase, hd]
    · exact fun h => absurd hd h
    · exact fun _ => ⟨rfl, sh₂.perm s.pile.list⟩
  · rw [updateDeckIfEmpty_of_ne sh₂ _ (by simpa [humanPlays_eq, Presenter.notify] using hd)]
    refine ⟨_, rfl, ?_, ?_, ?_, ?_, ?_, ?_⟩
    · simp [humanPlays_eq, Presenter.notify, herase]
    · simp [humanPlays_eq, Presenter.notify, Pile.getTopCard]
    · simp [humanPlays_eq, Presenter.notify]
    · simp [humanPlays_eq, Presenter.notify, herase, hd]
    · intro _
      constructor <;> simp [humanPlays_eq, Presenter.notify]
    · exact fun h => absurd h hd

theorem C8_winner_detection_witness :
    lastCardDeckGame.human.list = [⟨.nine, .spades⟩] ∧
    lastCardDeckGame.pile.isValidToPlay (some ⟨.nine, .spades⟩) = true ∧
    Card.getValue ⟨.nine, .spades⟩ ≠ Rank.eight ∧
    ∃ s', lastCardDeckGame.playCard Shuffle.keep Shuffle.keep 0
        (Card.toString ⟨.nine, .spades⟩) = some s' ∧
      s'.human.list = [] ∧ s'.pile.getTopCard = some ⟨.nine, .spades⟩ ∧
      s'.computer = lastCardDeckGame.computer ∧
      s'.view = lastCardDeckGame.view ++ [Event.displayHumanHand [],
        Event.displayPileTopCard ⟨.nine, .spades⟩, Event.announceHumanWinner]
        ++ (if lastCardDeckGame.deck.list = [] then [Event.updateTable ⟨.nine, .spades⟩]
          else []) ∧
      (lastCardDeckGame.deck.list ≠ [] → s'.deck = lastCardDeckGame.deck ∧
        s'.pile.list = ⟨.nine, .spades⟩ :: lastCardDeckGame.pile.list) ∧
      (lastCardDeckGame.deck.list = [] → s'.pile.list = [⟨.nine, .spades⟩] ∧
        List.Perm s'.deck.list lastCardDeckGame.pile.list) :=
  ⟨rfl, by decide, by decide,
    C8_winner_detection Shuffle.keep Shuffle.keep 0 lastCardDeckGame ⟨.nine, .spades⟩
      rfl (by decide) (by decide)⟩

/-- C9, counterexample. A game constructed from the deck order `stackedDeck`, in which the human
plays seven spades in a row and wins (the computer, never able to play, drew six times). The
state is terminal, yet a further `drawCard` is processed: the human takes the two of hearts and
the computer takes the three of hearts, so a hand and the deck change after the game has ended. -/
theorem C9_terminal_not_absorbing_counterexample :
    Presenter.new [Shuffle.stack stackedDeck] = some stackedGame ∧
    stackedGame.run wonCalls = some wonGame ∧
    Reachable wonGame ∧
    wonGame.human.list = [] ∧
    wonGame.view.getLast? = some Event.announceHumanWinner ∧
    wonGame.drawCard Shuffle.keep Shuffle.keep 0
      = some { deck := ⟨stackedDeck.drop 23⟩
               pile := wonGame.pile
               human := ⟨[⟨.two, .hearts⟩]⟩
               computer := ⟨wonGame.computer.list ++ [⟨.three, .hearts⟩]⟩
               view := wonGame.view ++ [Event.addCardPlayerHand ⟨.two, .hearts⟩,
                 Event.addCardComputerHand ⟨.three, .hearts⟩]
               difficultyLevel := "medium" } ∧
    (⟨[⟨.two, .hearts⟩]⟩ : Player) ≠ wonGame.human ∧
    (⟨stackedDeck.drop 23⟩ : Deck) ≠ wonGame.deck ∧
    (⟨wonGame.computer.list ++ [⟨.three, .hearts⟩]⟩ : Player) ≠ wonGame.computer :=
  ⟨stackedGame_new, wonGame_run, wonGame_reachable, rfl, by decide, by decide, by decide,
    by decide, by decide⟩

/-- C9, amended. After the human has won (the human's hand is empty) every further `playCard` is
rejected as an invalid move and leaves the deck, the pile and both hands unchanged. `drawCard` is
not blocked, since no game-over state is kept: while cards are left to draw it returns a state
in which the human holds the card that was on top of the deck, and the call is the computer's
turn (`playComputer`) run on the state after that draw and the refill of an emptied deck, as in
any other state. -/
theorem C9_terminal_states (sh₁ sh₂ : Shuffle) (r : ℚ) (s : Presenter)
    (hh : s.human.list = []) :
    (∀ cardString : String, s.playCard sh₁ sh₂ r cardString
      = some { s with view := s.view ++ [Event.alertInvalidCard] }) ∧
    (∀ (c : Card) (d : List Card), s.deck.list = c :: d → s.pile.list ≠ [] →
      d ≠ [] ∨ 2 ≤ s.pile.list.length →
      ∃ s', s.drawCard sh₁ sh₂ r = some s' ∧ s'.human.list = [c]) ∧
    (∀ (c : Card) (d : List Card), s.deck.list = c :: d →
      s.drawCard sh₁ sh₂ r
        = (Presenter.updateDeckIfEmpty sh₁ { s with
            deck := ⟨d⟩
            human := ⟨[c]⟩
            view := s.view ++ [Event.addCardPlayerHand c] }).bind
          (Presenter.playComputer sh₂ r)) := by
  refine ⟨?_, ?_, ?_⟩
  · intro cardString
    apply playCard_unknown
    rw [hh]
    intro c hc
    exact absurd hc (List.not_mem_nil c)
  · intro c d hd hp hleft
    obtain ⟨s', hs'⟩ := drawCard_isSome sh₁ sh₂ r s c d hd hp hleft
    refine ⟨s', hs', ?_⟩
    rw [drawCard_human sh₁ sh₂ r s s' c d hd hs', hh]
    rfl
  · intro c d hd
    rw [drawCard_eq sh₁ sh₂ r s c d hd, hh]
    rfl

theorem C9_terminal_states_witness :
    wonGame.human.list = [] ∧
    (∀ cardString : String, wonGame.playCard Shuffle.keep Shuffle.keep 0 cardString
      = some { wonGame with view := wonGame.view ++ [Event.alertInvalidCard] }) ∧
    (∀ (c : Card) (d : List Card), wonGame.deck.list = c :: d → wonGame.pile.list ≠ [] →
      d ≠ [] ∨ 2 ≤ wonGame.pile.list.length →
      ∃ s', wonGame.drawCard Shuffle.keep Shuffle.keep 0 = some s' ∧ s'.human.list = [c]) ∧
    (∀ (c : Card) (d : List Card), wonGame.deck.list = c :: d →
      wonGame.drawCard Shuffle.keep Shuffle.keep 0
        = (Presenter.updateDeckIfEmpty Shuffle.keep { wonGame with
            deck := ⟨d⟩
            human := ⟨[c]⟩
            view := wonGame.view ++ [Event.addCardPlayerHand c] }).bind
          (Presenter.playComputer Shuffle.keep 0)) :=
  ⟨rfl, C9_terminal_states Shuffle.keep Shuffle.keep 0 wonGame rfl⟩

/-- C10. Drawing ends the human's turn: with a card on the deck, `drawCard` moves exactly the
top card of the deck to the end of the human's hand (no card of the human goes to the pile),
refills the deck if that emptied it, and then runs `playComputer` once, whatever the human holds.
The hand the human has after the call is the old hand with the drawn card; the call returns a
state whenever cards are left for the computer to draw. -/
theorem C10_draw_ends_turn (sh₁ sh₂ : Shuffle) (r : ℚ) (s : Presenter) (c : Card) (d : List Card)
    (hd : s.deck.list = c :: d) :
    ∃ m, s.humanDraws = some m ∧
      m.deck.list = d ∧ m.human.list = s.human.list ++ [c] ∧
      m.pile = s.pile ∧ m.computer = s.computer ∧
      s.drawCard sh₁ sh₂ r
        = (if m.deck.list.length = 0 then m.updateDeck sh₁ else some m).bind
            (Presenter.playComputer sh₂ r) ∧
      (∀ s', s.drawCard sh₁ sh₂ r = some s' → s'.human.list = s.human.list ++ [c]) ∧
      (s.pile.list ≠ [] → d ≠ [] ∨ 2 ≤ s.pile.list.length →
        ∃ s', s.drawCard sh₁ sh₂ r = some s') := by
  refine ⟨_, humanDraws_cons s c d hd, rfl, rfl, rfl, rfl, ?_, ?_, ?_⟩
  · rw [drawCard_eq sh₁ sh₂ r s c d hd]; rfl
  · exact fun s' h => drawCard_human sh₁ sh₂ r s s' c d hd h
  · exact fun hp hleft => drawCard_isSome sh₁ sh₂ r s c d hd hp hleft

theorem C10_draw_ends_turn_witness :
    stuckGame.deck.list = [⟨.five, .clubs⟩, ⟨.jack, .spades⟩] ∧
    ∃ m, stuckGame.humanDraws = some m ∧
      m.deck.list = [⟨.jack, .spades⟩] ∧
      m.human.list = stuckGame.human.list ++ [⟨.five, .clubs⟩] ∧
      m.pile = stuckGame.pile ∧ m.computer = stuckGame.computer ∧
      stuckGame.drawCard Shuffle.keep Shuffle.keep 0
        = (if m.deck.list.length = 0 then m.updateDeck Shuffle.keep else some m).bind
            (Presenter.playComputer Shuffle.keep 0) ∧
      (∀ s', stuckGame.drawCard Shuffle.keep Shuffle.keep 0 = some s' →
        s'.human.list = stuckGame.human.list ++ [⟨.five, .clubs⟩]) ∧
      (stuckGame.pile.list ≠ [] → [(⟨.jack, .spades⟩ : Card)] ≠ [] ∨ 2 ≤ stuckGame.pile.list.length →
        ∃ s', stuckGame.drawCard Shuffle.keep Shuffle.keep 0 = some s') :=
  ⟨rfl, C10_draw_ends_turn Shuffle.keep Shuffle.keep 0 stuckGame ⟨.five, .clubs⟩
    [⟨.jack, .spades⟩] rfl⟩

theorem drainGame_new : Presenter.new [Shuffle.stack drainDeck] = some drainGame := by decide

theorem lastDrawGame_run : drainGame.run drainCalls = some lastDrawGame := by decide

theorem lastDrawGame_reachable : Reachable lastDrawGame :=
  reachable_run drainGame lastDrawGame drainCalls
    (Reachable.start [Shuffle.stack drainDeck] drainGame drainGame_new) lastDrawGame_run

/-- C11, the code at the failing input. In the game constructed from `drainDeck` the human draws
eighteen times and the computer, never able to play, draws after each. The nineteenth `drawCard`
takes the last card of the deck; the refill finds only the top card on the pile and leaves the
deck empty; the computer has no card the pile accepts, so `playComputer` deals from the empty
deck: `dealACard` has no card to return and `drawCard` has no resulting state. -/
theorem C11_empty_deck_draw :
    Presenter.new [Shuffle.stack drainDeck] = some drainGame ∧
    drainGame.run drainCalls = some lastDrawGame ∧
    Reachable lastDrawGame ∧
    lastDrawGame.deck.list.length = 1 ∧
    lastDrawGame.humanDraws.bind (Presenter.updateDeckIfEmpty Shuffle.keep) = some emptiedGame ∧
    emptiedGame.deck.list = [] ∧
    emptiedGame.pile.isValidToPlay (emptiedGame.pick 0).2 = false ∧
    emptiedGame.playComputer Shuffle.keep 0 = emptiedGame.computerDraws ∧
    emptiedGame.deck.dealACard = none ∧
    emptiedGame.computerDraws = none ∧
    lastDrawGame.drawCard Shuffle.keep Shuffle.keep 0 = none :=
  ⟨drainGame_new, lastDrawGame_run, lastDrawGame_reachable, by decide, by decide, rfl,
    by decide, by decide, rfl, rfl, by decide⟩

/-! ## The constructor returns -/

theorem deal_isSome (n : Nat) (d : Deck) (p : Player) (h : n ≤ d.list.length) :
    ∃ res, Player.deal n d p = some res := by
  induction n generalizing d p with
  | zero => exact ⟨_, rfl⟩
  | succ n ih =>
    cases hd : d.list with
    | nil => rw [hd] at h; exact absurd h (by simp)
    | cons c rest =>
      simp only [Player.deal, Deck.dealACard, hd]
      apply ih
      rw [hd] at h
      simpa using h

theorem shuffleUntilNoEight_isSome (pre : List Shuffle) (sh : Shuffle) (post : List Shuffle)
    (d : Deck)
    (h : (Deck.shuffle sh (pre.foldl (fun d x => Deck.shuffle x d) d)).isTopCardAnEight = false) :
    ∃ d', shuffleUntilNoEight (pre ++ sh :: post) d = some d' := by
  induction pre generalizing d with
  | nil =>
    simp only [List.nil_append, shuffleUntilNoEight]
    simp only [List.foldl_nil] at h
    rw [h]
    exact ⟨_, rfl⟩
  | cons x pre ih =>
    simp only [List.cons_append, shuffleUntilNoEight]
    split
    · exact ih (Deck.shuffle x d) (by simpa using h)
    · exact ⟨_, rfl⟩

theorem new_isSome (shs : List Shuffle) (d : Deck) (h : shuffleUntilNoEight shs Deck.new = some d) :
    ∃ s, Presenter.new shs = some s := by
  obtain ⟨hperm, _⟩ := shuffleUntilNoEight_spec shs _ _ h
  have hlen : d.list.length = 52 := hperm.length_eq
  unfold Presenter.new
  rw [h]
  cases hl : d.list with
  | nil => rw [hl] at hlen; exact absurd hlen (by decide)
  | cons first rest =>
    have hrest : rest.length = 51 := by rw [hl] at hlen; simpa using hlen
    simp only [Deck.dealACard, hl]
    obtain ⟨⟨human, deck1⟩, h1⟩ := deal_isSome 7 ⟨rest⟩ ⟨[]⟩ (by simp [hrest])
    obtain ⟨_, hd1, _⟩ := deal_spec 7 _ _ _ _ h1
    obtain ⟨⟨computer, deck2⟩, h2⟩ := deal_isSome 7 deck1 ⟨[]⟩ (by rw [hd1]; simp [hrest])
    simp only [Player.new, h1, h2]
    exact ⟨_, rfl⟩

/-- C12. Game start: whatever the shuffles, a constructed game has 7 cards in the human's hand,
7 in the computer's hand, 37 on the deck and exactly 1 on the pile, and the top card of the pile
is not an eight. The constructor returns as soon as one of the shuffles leaves a card other than
an eight on top of the deck. -/
theorem C12_game_start (shs : List Shuffle) :
    (∀ s, Presenter.new shs = some s →
      s.human.list.length = 7 ∧ s.computer.list.length = 7 ∧ s.deck.list.length = 37 ∧
      s.pile.list.length = 1 ∧
      ∃ t, s.pile.getTopCard = some t ∧ t.getValue ≠ Rank.eight) ∧
    ((∃ pre sh post, shs = pre ++ sh :: post ∧
        (Deck.shuffle sh (pre.foldl (fun d x => Deck.shuffle x d) Deck.new)).isTopCardAnEight
          = false) →
      ∃ s, Presenter.new shs = some s) := by
  constructor
  · intro s hs
    obtain ⟨l, hperm, hp, hh, hc, hd, _, _, _, htop⟩ := new_spec shs s hs
    have hlen : l.length = 52 := hperm.length_eq
    refine ⟨?_, ?_, ?_, ?_, ?_⟩
    · rw [hh]; simp [hlen]
    · rw [hc]; simp [hlen]
    · rw [hd]; simp [hlen]
    · rw [hp]; simp [hlen]
    · cases hl : l with
      | nil => rw [hl] at hlen; exact absurd hlen (by decide)
      | cons t rest =>
        refine ⟨t, ?_, ?_⟩
        · simp [Pile.getTopCard, hp, hl]
        · rw [hl] at htop
          simpa [Deck.isTopCardAnEight] using htop
  · rintro ⟨pre, sh, post, rfl, h⟩
    obtain ⟨d, hd⟩ := shuffleUntilNoEight_isSome pre sh post Deck.new h
    exact new_isSome _ d hd

theorem C12_game_start_witness :
    (Presenter.new [Shuffle.flip] = some freshGame ∧
      freshGame.human.list.length = 7 ∧ freshGame.computer.list.length = 7 ∧
      freshGame.deck.list.length = 37 ∧ freshGame.pile.list.length = 1 ∧
      ∃ t, freshGame.pile.getTopCard = some t ∧ t.getValue ≠ Rank.eight) ∧
    ((Deck.shuffle Shuffle.flip Deck.new).isTopCardAnEight = false ∧
      ∃ s, Presenter.new [Shuffle.flip] = some s) :=
  ⟨⟨freshGame_new, (C12_game_start [Shuffle.flip]).1 freshGame freshGame_new⟩,
    ⟨by decide, (C12_game_start [Shuffle.flip]).2 ⟨[], Shuffle.flip, [], rfl, by decide⟩⟩⟩

/-! ## The announced suit and the display trace along a call -/

theorem Presenter.Advance.refl (s : Presenter) : s.Advance s :=
  ⟨⟨[], (List.append_nil _).symm⟩, fun h => h, Or.inl rfl⟩

theorem Presenter.Advance.trans {s m s' : Presenter} (h₁ : s.Advance m) (h₂ : m.Advance s') :
    s.Advance s' := by
  obtain ⟨⟨e₁, v₁⟩, a₁, t₁⟩ := h₁
  obtain ⟨⟨e₂, v₂⟩, a₂, t₂⟩ := h₂
  refine ⟨⟨e₁ ++ e₂, by rw [v₂, v₁, List.append_assoc]⟩, fun h => a₂ (a₁ h), ?_⟩
  rcases t₂ with t₂ | t₂
  · rcases t₁ with t₁ | t₁
    · exact Or.inl (t₂.trans t₁)
    · right
      intro h8
      have h8m : m.EightOnTop := by
        unfold Presenter.EightOnTop at h8 ⊢
        rw [← t₂]; exact h8
      rcases t₁ h8m with h | h
      · exact Or.inl (a₂ h)
      · exact Or.inr (by rw [v₂]; exact List.mem_append_left _ h)
  · exact Or.inr t₂

theorem Presenter.Advance.keeps {s s' : Presenter} (h : s.Advance s') (hs : s.SuitKnownOrAsked) :
    s'.SuitKnownOrAsked := by
  obtain ⟨⟨e, v⟩, a, t⟩ := h
  rcases t with t | t
  · intro h8
    have h8s : s.EightOnTop := by
      unfold Presenter.EightOnTop at h8 ⊢
      rw [← t]; exact h8
    rcases hs h8s with h | h
    · exact Or.inl (a h)
    · exact Or.inr (by rw [v]; exact List.mem_append_left _ h)
  · exact t

theorem Presenter.Advance.of_same_pile (s s' : Presenter) (evs : List Event)
    (hv : s'.view = s.view ++ evs) (hp : s'.pile = s.pile) : s.Advance s' :=
  ⟨⟨evs, hv⟩, fun h => by rw [hp]; exact h, Or.inl (by rw [hp])⟩

theorem updateDeckIfEmpty_advance (sh : Shuffle) (s s' : Presenter)
    (h : s.updateDeckIfEmpty sh = some s') : s.Advance s' := by
  by_cases hd : s.deck.list = []
  · cases hp : s.pile.list with
    | nil =>
      unfold Presenter.updateDeckIfEmpty at h
      rw [if_pos (by rw [hd]; rfl), updateDeck_nil sh s hp] at h
      exact Option.noConfusion h
    | cons t rest =>
      rw [updateDeckIfEmpty_of_nil sh s t rest hd hp] at h
      injection h with h
      subst h
      exact ⟨⟨_, rfl⟩, fun h => h, Or.inl (by simp [Pile.getTopCard, hp])⟩
  · rw [updateDeckIfEmpty_of_ne sh s hd] at h
    injection h with h
    subst h
    exact Presenter.Advance.refl s

theorem computerDraws_advance (s s' : Presenter) (h : s.computerDraws = some s') :
    s.Advance s' := by
  cases hd : s.deck.list with
  | nil => rw [computerDraws_nil s hd] at h; exact Option.noConfusion h
  | cons c d =>
    rw [computerDraws_cons s c d hd] at h
    injection h with h
    subst h
    exact Presenter.Advance.of_same_pile _ _ _ rfl rfl

theorem humanDraws_advance (s s' : Presenter) (h : s.humanDraws = some s') :
    s.Advance s' := by
  cases hd : s.deck.list with
  | nil => rw [humanDraws_nil s hd] at h; exact Option.noConfusion h
  | cons c d =>
    rw [humanDraws_cons s c d hd] at h
    injection h with h
    subst h
    exact Presenter.Advance.of_same_pile _ _ _ rfl rfl

theorem computerPlays_eq (i : Nat) (card : Card) (s : Presenter) :
    s.computerPlays i card = { s with
      computer := ⟨s.computer.list.eraseIdx i⟩
      pile := ⟨card :: s.pile.list,
        if card.getValue = Rank.eight then some card.getSuit else s.pile.announcedSuit⟩
      view := s.view ++ [Event.displayPileTopCard card,
          Event.displayComputerHand (s.computer.list.eraseIdx i)]
        ++ (if (s.computer.list.eraseIdx i).isEmpty = true then [Event.announceComputerWinner]
          else []) } := by
  unfold Presenter.computerPlays
  by_cases h8 : card.getValue = Rank.eight <;>
    by_cases he : (s.computer.list.eraseIdx i).isEmpty = true <;>
    simp [Presenter.notify, Pile.acceptACard, Pile.setAnnouncedSuit, Pile.getTopCard,
      Player.remove, Player.getHandCopy, Player.isHandEmpty, h8, he]

theorem computerPlays_advance (i : Nat) (card : Card) (s : Presenter) :
    s.Advance (s.computerPlays i card) := by
  rw [computerPlays_eq]
  refine ⟨⟨_, by simp only [List.append_assoc]; rfl⟩, ?_, Or.inr ?_⟩
  · intro h
    by_cases h8 : card.getValue = Rank.eight
    · simp [h8]
    · simpa [h8] using h
  · intro h8
    left
    have : card.getValue = Rank.eight := by
      simpa [Presenter.EightOnTop, Pile.getTopCard] using h8
    simp [this]

theorem playComputer_advance (sh : Shuffle) (r : ℚ) (s s' : Presenter)
    (h : s.playComputer sh r = some s') : s.Advance s' := by
  cases hv : s.pile.isValidToPlay (s.pick r).2 with
  | true =>
    obtain ⟨c, hc⟩ := isValidToPlay_isSome _ _ hv
    have hpick : s.pick r = ((s.pick r).1, some c) := Prod.ext rfl hc
    rw [playComputer_of_valid sh r s _ c hpick (by rw [← hc]; exact hv)] at h
    exact (computerPlays_advance _ c s).trans (updateDeckIfEmpty_advance sh _ _ h)
  | false =>
    rw [playComputer_of_invalid sh r s hv] at h
    obtain ⟨m, hm, hupd⟩ := Option.bind_eq_some.mp h
    exact (computerDraws_advance s m hm).trans (updateDeckIfEmpty_advance sh _ _ hupd)

theorem drawCard_advance (sh₁ sh₂ : Shuffle) (r : ℚ) (s s' : Presenter)
    (h : s.drawCard sh₁ sh₂ r = some s') : s.Advance s' := by
  unfold Presenter.drawCard at h
  cases hd : s.humanDraws with
  | none => rw [hd] at h; exact Option.noConfusion h
  | some m =>
    rw [hd] at h
    obtain ⟨m', hm', hplay⟩ := Option.bind_eq_some.mp h
    exact ((humanDraws_advance s m hd).trans (updateDeckIfEmpty_advance sh₁ _ _ hm')).trans
      (playComputer_advance sh₂ r _ _ hplay)

theorem humanPlays_view (card : Card) (s : Presenter) :
    (s.humanPlays card).view = s.view ++ [Event.displayHumanHand (s.human.list.erase card),
      Event.displayPileTopCard card] := by
  rw [humanPlays_eq]

/-- The statements of `playCard` that follow the move of an accepted card to the pile. -/
theorem playCard_of_valid (sh₁ sh₂ : Shuffle) (r : ℚ) (s : Presenter) (c : Card)
    (cardString : String) (hf : s.human.find cardString = some c)
    (hv : s.pile.isValidToPlay (some c) = true) :
    s.playCard sh₁ sh₂ r cardString
      = (if c.getValue = Rank.eight then some ((s.humanPlays c).notify Event.displaySuitPicker)
         else if (s.humanPlays c).human.isHandEmpty = true then
           some ((s.humanPlays c).notify Event.announceHumanWinner)
         else (s.humanPlays c).playComputer sh₁ r).bind (Presenter.updateDeckIfEmpty sh₂) := by
  unfold Presenter.playCard
  simp only [hf, hv, if_true]
  have htop : ((s.humanPlays c).pile.getTopCard.map Card.getValue = some Rank.eight)
      ↔ (c.getValue = Rank.eight) := by
    simp [humanPlays_eq, Pile.getTopCard]
  by_cases h8 : c.getValue = Rank.eight
  · rw [if_pos (htop.mpr h8), if_pos h8]
  · rw [if_neg (fun h => h8 (htop.mp h)), if_neg h8]

theorem playCard_of_invalid (sh₁ sh₂ : Shuffle) (r : ℚ) (s : Presenter) (cardString : String)
    (hv : s.pile.isValidToPlay (s.human.find cardString) = false) :
    s.playCard sh₁ sh₂ r cardString = some (s.notify Event.alertInvalidCard) := by
  unfold Presenter.playCard
  simp [hv]

theorem playCard_advance (sh₁ sh₂ : Shuffle) (r : ℚ) (cardString : String) (s s' : Presenter)
    (h : s.playCard sh₁ sh₂ r cardString = some s') :
    s.Advance s' ∧
    (∀ c, s.human.find cardString = some c → s.pile.isValidToPlay (some c) = true →
      ∃ evs, s'.view = s.view ++ [Event.displayHumanHand (s.human.list.erase c),
        Event.displayPileTopCard c] ++ evs) := by
  cases hv : s.pile.isValidToPlay (s.human.find cardString) with
  | false =>
    rw [playCard_of_invalid sh₁ sh₂ r s cardString hv] at h
    injection h with h
    subst h
    refine ⟨Presenter.Advance.of_same_pile _ _ _ rfl rfl, ?_⟩
    intro c hc hvc
    rw [hc, hvc] at hv
    exact Bool.noConfusion hv
  | true =>
    obtain ⟨c, hc⟩ := isValidToPlay_isSome _ _ hv
    have hvc : s.pile.isValidToPlay (some c) = true := by rw [← hc]; exact hv
    rw [playCard_of_valid sh₁ sh₂ r s c cardString hc hvc] at h
    obtain ⟨m, hm, hupd⟩ := Option.bind_eq_some.mp h
    have hplays : s.Advance (s.humanPlays c) ∨ c.getValue = Rank.eight := by
      by_cases h8 : c.getValue = Rank.eight
      · exact Or.inr h8
      · left
        refine ⟨⟨_, humanPlays_view c s⟩, fun h => by simpa [humanPlays_eq] using h, Or.inr ?_⟩
        intro h8'
        exact absurd (by simpa [Presenter.EightOnTop, humanPlays_eq, Pile.getTopCard] using h8') h8
    have hmid : s.Advance m ∧ ∃ evs, m.view = (s.humanPlays c).view ++ evs := by
      by_cases h8 : c.getValue = Rank.eight
      · rw [if_pos h8] at hm
        injection hm with hm
        subst hm
        refine ⟨⟨⟨_, by simp only [Presenter.notify, humanPlays_view, List.append_assoc]; rfl⟩,
          fun h => by simpa [Presenter.notify, humanPlays_eq] using h, Or.inr ?_⟩, ⟨_, rfl⟩⟩
        intro _
        right
        simp [Presenter.notify]
      · rw [if_neg h8] at hm
        have hadv : s.Advance (s.humanPlays c) := by
          rcases hplays with hp | hp
          · exact hp
          · exact absurd hp h8
        split at hm
        · injection hm with hm
          subst hm
          exact ⟨hadv.trans (Presenter.Advance.of_same_pile _ _ _ rfl rfl), ⟨_, rfl⟩⟩
        · have := playComputer_advance sh₁ r _ _ hm
          exact ⟨hadv.trans this, this.1⟩
    have hlast := updateDeckIfEmpty_advance sh₂ m s' hupd
    refine ⟨hmid.1.trans hlast, ?_⟩
    intro c' hc' _
    rw [hc] at hc'
    injection hc' with hc'
    subst hc'
    obtain ⟨e₁, v₁⟩ := hmid.2
    obtain ⟨e₂, v₂⟩ := hlast.1
    exact ⟨e₁ ++ e₂, by rw [v₂, v₁, humanPlays_view, List.append_assoc]⟩

theorem continueGameAfterSuitSelection_advance (sh₁ sh₂ : Shuffle) (r : ℚ) (suit : Suit)
    (s s' : Presenter) (h : s.continueGameAfterSuitSelection sh₁ sh₂ r suit = some s') :
    s.Advance s' ∧ s'.pile.announcedSuit.isSome = true := by
  have hset : s.Advance { s with pile := s.pile.setAnnouncedSuit suit } :=
    ⟨⟨[], (List.append_nil _).symm⟩, fun _ => rfl, Or.inl rfl⟩
  unfold Presenter.continueGameAfterSuitSelection at h
  simp only at h
  split at h
  · injection h with h
    subst h
    exact ⟨hset.trans (Presenter.Advance.of_same_pile _ _ _ rfl rfl), rfl⟩
  · obtain ⟨m, hm, hplay⟩ := Option.bind_eq_some.mp h
    have h₁ := updateDeckIfEmpty_advance sh₁ _ _ hm
    have h₂ := playComputer_advance sh₂ r _ _ hplay
    exact ⟨(hset.trans h₁).trans h₂, h₂.2.1 (h₁.2.1 rfl)⟩

theorem call_advance (s s' : Presenter) (c : Call) (h : s.call c = some s') : s.Advance s' := by
  cases c with
  | drawCard sh₁ sh₂ r => exact drawCard_advance sh₁ sh₂ r s s' h
  | playCard sh₁ sh₂ r cardString => exact (playCard_advance sh₁ sh₂ r cardString s s' h).1
  | continueGameAfterSuitSelection sh₁ sh₂ r suit =>
    exact (continueGameAfterSuitSelection_advance sh₁ sh₂ r suit s s' h).1
  | setDifficulty level =>
    simp only [Presenter.call, Option.some.injEq] at h
    subst h
    exact Presenter.Advance.of_same_pile _ _ [] (List.append_nil _).symm rfl

/-! ## The legal-move rule -/

theorem isValidToPlay_iff_legalMove (p : Pile) (t c : Card) (ht : p.getTopCard = some t) :
    p.isValidToPlay (some c) = true ↔ LegalMove p t c := by
  unfold Pile.isValidToPlay LegalMove
  simp only [ht]
  by_cases h8 : t.getValue = Rank.eight
  · simp [h8]
  · simp [h8, or_assoc]

theorem legalMove_eight (p : Pile) (t c : Card) (h : c.getValue = Rank.eight) :
    LegalMove p t c := by
  unfold LegalMove
  by_cases h8 : t.getValue = Rank.eight
  · exact Or.inl ⟨h8, Or.inr h⟩
  · exact Or.inr ⟨h8, Or.inr (Or.inr h)⟩

theorem playCard_human (sh₁ sh₂ : Shuffle) (r : ℚ) (s s' : Presenter) (c : Card)
    (cardString : String) (hf : s.human.find cardString = some c)
    (hv : s.pile.isValidToPlay (some c) = true)
    (h : s.playCard sh₁ sh₂ r cardString = some s') :
    s'.human.list = s.human.list.erase c := by
  rw [playCard_of_valid sh₁ sh₂ r s c cardString hf hv] at h
  obtain ⟨m, hm, hupd⟩ := Option.bind_eq_some.mp h
  obtain ⟨_, hh, _⟩ := updateDeckIfEmpty_keeps sh₂ _ _ hupd
  have hmid : m.human.list = s.human.list.erase c := by
    split at hm
    · injection hm with hm; subst hm; simp [Presenter.notify, humanPlays_eq]
    · split at hm
      · injection hm with hm; subst hm; simp [Presenter.notify, humanPlays_eq]
      · obtain ⟨_, hh2, _⟩ := playComputer_cards sh₁ r _ m hm
        rw [hh2]; simp [humanPlays_eq]
  rw [hh, hmid]

/-- C13. Legal-move rule as enforced by `playCard`: for a card `c` of the human's hand and a pile
with top card `t`, `playCard` accepts `c` if and only if `t` is an eight and `c` has the
announced suit or is an eight, or `t` is no eight and `c` matches it in suit or rank or is an
eight. Accepting means: the call does not end in the invalid-move signal; `c` is taken out of
the hand and put on top of the pile, the display is told so, and the turn goes on from there;
in every state the call returns, `c` has left the hand. Rejecting leaves the state as it was,
with the signal. An eight is always accepted. -/
theorem C13_legal_move_rule (sh₁ sh₂ : Shuffle) (r : ℚ) (s : Presenter) (c t : Card)
    (hc : c ∈ s.human.list) (ht : s.pile.getTopCard = some t) :
    (LegalMove s.pile t c ↔
      s.playCard sh₁ sh₂ r c.toString ≠ some (s.notify Event.alertInvalidCard)) ∧
    (LegalMove s.pile t c →
      (s.humanPlays c).human.list = s.human.list.erase c ∧
      (s.humanPlays c).pile.list = c :: s.pile.list ∧
      s.playCard sh₁ sh₂ r c.toString
        = (if c.getValue = Rank.eight then
             some ((s.humanPlays c).notify Event.displaySuitPicker)
           else if (s.humanPlays c).human.isHandEmpty = true then
             some ((s.humanPlays c).notify Event.announceHumanWinner)
           else (s.humanPlays c).playComputer sh₁ r).bind (Presenter.updateDeckIfEmpty sh₂) ∧
      ∀ s', s.playCard sh₁ sh₂ r c.toString = some s' →
        s'.human.list = s.human.list.erase c ∧
        ∃ evs, s'.view = s.view ++ [Event.displayHumanHand (s.human.list.erase c),
          Event.displayPileTopCard c] ++ evs) ∧
    (¬ LegalMove s.pile t c →
      s.playCard sh₁ sh₂ r c.toString
        = some { s with view := s.view ++ [Event.alertInvalidCard] }) ∧
    (c.getValue = Rank.eight → LegalMove s.pile t c) := by
  have hf := find_toString s.human c hc
  have hiff := isValidToPlay_iff_legalMove s.pile t c ht
  have hacc : LegalMove s.pile t c → ∀ s', s.playCard sh₁ sh₂ r c.toString = some s' →
      s'.human.list = s.human.list.erase c ∧
      ∃ evs, s'.view = s.view ++ [Event.displayHumanHand (s.human.list.erase c),
        Event.displayPileTopCard c] ++ evs := by
    intro hl s' hs'
    have hv := hiff.mpr hl
    exact ⟨playCard_human sh₁ sh₂ r s s' c _ hf hv hs',
      (playCard_advance sh₁ sh₂ r _ s s' hs').2 c hf hv⟩
  have hrej : ¬ LegalMove s.pile t c →
      s.playCard sh₁ sh₂ r c.toString = some (s.notify Event.alertInvalidCard) := by
    intro hl
    apply playCard_of_invalid
    rw [hf]
    cases hv : s.pile.isValidToPlay (some c) with
    | true => exact absurd (hiff.mp hv) hl
    | false => rfl
  refine ⟨⟨?_, ?_⟩, ?_, hrej, legalMove_eight s.pile t c⟩
  · intro hl heq
    obtain ⟨_, evs, hview⟩ := hacc hl _ heq
    simp only [Presenter.notify, List.append_assoc] at hview
    have := List.append_cancel_left hview
    simp at this
  · intro hne
    by_contra hl
    exact hne (hrej hl)
  · intro hl
    refine ⟨by simp [humanPlays_eq], by simp [humanPlays_eq], ?_, hacc hl⟩
    exact playCard_of_valid sh₁ sh₂ r s c _ hf (hiff.mpr hl)

theorem C13_legal_move_rule_witness :
    (⟨.eight, .hearts⟩ : Card) ∈ eightGame.human.list ∧
    eightGame.pile.getTopCard = some ⟨.seven, .diamonds⟩ ∧
    LegalMove eightGame.pile ⟨.seven, .diamonds⟩ ⟨.eight, .hearts⟩ ∧
    eightGame.playCard Shuffle.keep Shuffle.keep 0 (Card.toString ⟨.eight, .hearts⟩)
      ≠ some (eightGame.notify Event.alertInvalidCard) :=
  ⟨by decide, rfl,
    (C13_legal_move_rule Shuffle.keep Shuffle.keep 0 eightGame ⟨.eight, .hearts⟩
      ⟨.seven, .diamonds⟩ (by decide) rfl).2.2.2 rfl,
    (C13_legal_move_rule Shuffle.keep Shuffle.keep 0 eightGame ⟨.eight, .hearts⟩
      ⟨.seven, .diamonds⟩ (by decide) rfl).1.mp (legalMove_eight _ _ _ rfl)⟩

/-- C14. Computer eight announces its own suit: when `playComputer` plays a card `c` of rank 8
(the switch leaves `c`, found at index `i` of the hand), the call returns a state whose announced
suit is the suit of `c` and whose top card is `c`; the display hears of the new top card, of the
computer's hand, of a win if the hand is empty and of a refill if the deck was empty, and is not
asked for the suit picker. -/
theorem C14_computer_eight_announces (sh : Shuffle) (r : ℚ) (s : Presenter) (i : Nat) (c : Card)
    (hp : s.pick r = (i, some c)) (h8 : c.getValue = Rank.eight) :
    ∃ s' evs, s.playComputer sh r = some s' ∧
      s'.pile.announcedSuit = some c.getSuit ∧
      s'.pile.getTopCard = some c ∧
      s'.view = s.view ++ evs ∧
      evs = [Event.displayPileTopCard c, Event.displayComputerHand (s.computer.list.eraseIdx i)]
        ++ (if (s.computer.list.eraseIdx i).isEmpty = true then [Event.announceComputerWinner]
          else [])
        ++ (if s.deck.list = [] then [Event.updateTable c] else []) ∧
      Event.displaySuitPicker ∉ evs := by
  have hv := isValidToPlay_eight s.pile c h8
  rw [playComputer_of_valid sh r s i c hp hv]
  obtain ⟨m, hm, md, mp, ma, mv⟩ : ∃ m, s.computerPlays i c = m ∧ m.deck.list = s.deck.list ∧
      m.pile.list = c :: s.pile.list ∧ m.pile.announcedSuit = some c.getSuit ∧
      m.view = s.view ++ ([Event.displayPileTopCard c,
          Event.displayComputerHand (s.computer.list.eraseIdx i)]
        ++ (if (s.computer.list.eraseIdx i).isEmpty = true then [Event.announceComputerWinner]
          else [])) :=
    ⟨_, rfl, by simp [computerPlays_eq], by simp [computerPlays_eq],
      by simp [computerPlays_eq, h8], by simp [computerPlays_eq]⟩
  rw [hm]
  have hno : Event.displaySuitPicker ∉
      [Event.displayPileTopCard c, Event.displayComputerHand (s.computer.list.eraseIdx i)]
        ++ (if (s.computer.list.eraseIdx i).isEmpty = true then [Event.announceComputerWinner]
          else [])
        ++ (if s.deck.list = [] then [Event.updateTable c] else []) := by
    by_cases he : (s.computer.list.eraseIdx i).isEmpty = true <;>
      by_cases hd : s.deck.list = [] <;> simp [he, hd]
  by_cases hd : s.deck.list = []
  · rw [updateDeckIfEmpty_of_nil sh m c s.pile.list (md.trans hd) mp]
    refine ⟨_, _, rfl, ma, rfl, ?_, rfl, hno⟩
    simp [mv, hd]
  · rw [updateDeckIfEmpty_of_ne sh m (by rw [md]; exact hd)]
    refine ⟨_, _, rfl, ma, ?_, ?_, rfl, hno⟩
    · simp [Pile.getTopCard, mp]
    · simp [mv, hd]

theorem C14_computer_eight_announces_witness :
    computerEightGame.pick 0 = (1, some ⟨.eight, .clubs⟩) ∧
    Card.getValue ⟨.eight, .clubs⟩ = Rank.eight ∧
    ∃ s' evs, computerEightGame.playComputer Shuffle.keep 0 = some s' ∧
      s'.pile.announcedSuit = some Suit.clubs ∧
      s'.pile.getTopCard = some ⟨.eight, .clubs⟩ ∧
      s'.view = computerEightGame.view ++ evs ∧
      evs = [Event.displayPileTopCard ⟨.eight, .clubs⟩,
          Event.displayComputerHand (computerEightGame.computer.list.eraseIdx 1)]
        ++ (if (computerEightGame.computer.list.eraseIdx 1).isEmpty = true then
          [Event.announceComputerWinner] else [])
        ++ (if computerEightGame.deck.list = [] then [Event.updateTable ⟨.eight, .clubs⟩]
          else []) ∧
      Event.displaySuitPicker ∉ evs :=
  ⟨by decide, rfl,
    C14_computer_eight_announces Shuffle.keep 0 computerEightGame 1 ⟨.eight, .clubs⟩
      (by decide) rfl⟩

theorem new_suit (shs : List Shuffle) (s : Presenter) (h : Presenter.new shs = some s) :
    s.pile.announcedSuit = none ∧ ¬ s.EightOnTop := by
  obtain ⟨l, hperm, hp, _, _, _, ha, _, _, htop⟩ := new_spec shs s h
  refine ⟨ha, ?_⟩
  cases hl : l with
  | nil => simp [Presenter.EightOnTop, Pile.getTopCard, hp, hl]
  | cons t rest =>
    rw [hl] at htop
    have : ¬ t.getValue = Rank.eight := by simpa [Deck.isTopCardAnEight] using htop
    simpa [Presenter.EightOnTop, Pile.getTopCard, hp, hl] using this

theorem reachable_suit (s : Presenter) (h : Reachable s) : s.SuitKnownOrAsked := by
  induction h with
  | start shs s hs => exact fun h8 => absurd h8 (new_suit shs s hs).2
  | step s s' c _ hc ih => exact (call_advance s s' c hc).keeps ih

/-- C15, counterexample. Two states reached from the game `freshGame`. After the human plays
the eight of spades the top card is an eight and no suit is announced. After the human then
chooses hearts and the computer plays the king of hearts, the top card is no eight and hearts
is still announced. -/
theorem C15_announced_suit_counterexample :
    Presenter.new [Shuffle.flip] = some freshGame ∧
    freshGame.playCard Shuffle.keep Shuffle.keep 0 "8s" = some pendingGame ∧
    Reachable pendingGame ∧
    pendingGame.pile.getTopCard = some ⟨.eight, .spades⟩ ∧
    pendingGame.pile.announcedSuit = none ∧
    pendingGame.continueGameAfterSuitSelection Shuffle.keep Shuffle.keep 0 Suit.hearts
      = some staleSuitGame ∧
    Reachable staleSuitGame ∧
    staleSuitGame.pile.getTopCard = some ⟨.king, .hearts⟩ ∧
    staleSuitGame.pile.announcedSuit = some Suit.hearts :=
  have h₁ : freshGame.playCard Shuffle.keep Shuffle.keep 0 "8s" = some pendingGame := by decide
  have h₂ : pendingGame.continueGameAfterSuitSelection Shuffle.keep Shuffle.keep 0 Suit.hearts
      = some staleSuitGame := by decide
  have r₁ : Reachable pendingGame :=
    Reachable.step freshGame pendingGame (Call.playCard Shuffle.keep Shuffle.keep 0 "8s")
      freshGame_reachable h₁
  ⟨freshGame_new, h₁, r₁, rfl, rfl, h₂,
    Reachable.step pendingGame staleSuitGame
      (Call.continueGameAfterSuitSelection Shuffle.keep Shuffle.keep 0 Suit.hearts) r₁ h₂,
    rfl, rfl⟩

/-- C15, amended. A freshly constructed game has no announced suit and no eight on top. In every
reachable state: an announced suit is never taken back by a later call, so it stays after a card
that is no eight covers the eight; it is defined after every `continueGameAfterSuitSelection`;
and with an eight on top, either a suit is announced or the display has been asked for the suit
picker (the human's eight does not announce a suit, the selection does). -/
theorem C15_announced_suit (s : Presenter) (h : Reachable s) :
    (∀ shs, Presenter.new shs = some s → s.pile.announcedSuit = none ∧ ¬ s.EightOnTop) ∧
    (s.EightOnTop →
      s.pile.announcedSuit.isSome = true ∨ Event.displaySuitPicker ∈ s.view) ∧
    (∀ c s', s.call c = some s' →
      s.pile.announcedSuit.isSome = true → s'.pile.announcedSuit.isSome = true) ∧
    (∀ sh₁ sh₂ r suit s', s.continueGameAfterSuitSelection sh₁ sh₂ r suit = some s' →
      s'.pile.announcedSuit.isSome = true) :=
  ⟨fun shs hs => new_suit shs s hs, reachable_suit s h,
    fun c s' hc => (call_advance s s' c hc).2.1,
    fun sh₁ sh₂ r suit s' hs' =>
      (continueGameAfterSuitSelection_advance sh₁ sh₂ r suit s s' hs').2⟩

theorem C15_announced_suit_witness :
    Reachable pendingGame ∧
    (pendingGame.EightOnTop →
      pendingGame.pile.announcedSuit.isSome = true ∨
        Event.displaySuitPicker ∈ pendingGame.view) ∧
    (pendingGame.pile.announcedSuit.isSome = true ∨
      Event.displaySuitPicker ∈ pendingGame.view) :=
  have r₁ : Reachable pendingGame :=
    Reachable.step freshGame pendingGame (Call.playCard Shuffle.keep Shuffle.keep 0 "8s")
      freshGame_reachable (by decide)
  ⟨r₁, (C15_announced_suit pendingGame r₁).2.1, (C15_announced_suit pendingGame r₁).2.1 rfl⟩

/-! ## The random integer -/

theorem getRandomInt_eq (r : ℚ) (min max : Int) :
    getRandomInt r min max = ⌊r * ((max : ℚ) - (min : ℚ) + 1)⌋ + min := rfl

/-- C16. Range of `getRandomInt`: for integers `min ≤ max` and every value `r` of `Math.random()`
with `0 ≤ r < 1`, taken as an exact rational, the result `floor(r * (max - min + 1)) + min` lies
between `min` and `max`, both included; and every integer between `min` and `max` is the result
for some such `r`. -/
theorem C16_getRandomInt_range (min max : Int) (h : min ≤ max) :
    (∀ r : ℚ, 0 ≤ r → r < 1 →
      min ≤ getRandomInt r min max ∧ getRandomInt r min max ≤ max) ∧
    (∀ n : Int, min ≤ n → n ≤ max →
      ∃ r : ℚ, 0 ≤ r ∧ r < 1 ∧ getRandomInt r min max = n) := by
  have hk : (0 : ℚ) < (max : ℚ) - (min : ℚ) + 1 := by
    have : (min : ℚ) ≤ (max : ℚ) := by exact_mod_cast h
    linarith
  constructor
  · intro r h0 h1
    rw [getRandomInt_eq]
    have hlo : (0 : Int) ≤ ⌊r * ((max : ℚ) - (min : ℚ) + 1)⌋ :=
      Int.floor_nonneg.mpr (mul_nonneg h0 hk.le)
    have hhi : ⌊r * ((max : ℚ) - (min : ℚ) + 1)⌋ < max - min + 1 := by
      rw [Int.floor_lt]
      push_cast
      calc r * ((max : ℚ) - (min : ℚ) + 1) < 1 * ((max : ℚ) - (min : ℚ) + 1) :=
            mul_lt_mul_of_pos_right h1 hk
        _ = (max : ℚ) - (min : ℚ) + 1 := one_mul _
    constructor <;> omega
  · intro n hn hx
    refine ⟨((n : ℚ) - (min : ℚ)) / ((max : ℚ) - (min : ℚ) + 1), ?_, ?_, ?_⟩
    · apply div_nonneg _ hk.le
      have : (min : ℚ) ≤ (n : ℚ) := by exact_mod_cast hn
      linarith
    · rw [div_lt_one hk]
      have : (n : ℚ) ≤ (max : ℚ) := by exact_mod_cast hx
      linarith
    · rw [getRandomInt_eq, div_mul_cancel₀ _ hk.ne']
      have : ((n : ℚ) - (min : ℚ)) = ((n - min : Int) : ℚ) := by push_cast; ring
      rw [this, Int.floor_intCast]
      omega

theorem C16_getRandomInt_range_witness :
    (1 : Int) ≤ 3 ∧
    (∀ r : ℚ, 0 ≤ r → r < 1 → 1 ≤ getRandomInt r 1 3 ∧ getRandomInt r 1 3 ≤ 3) ∧
    (∀ n : Int, 1 ≤ n → n ≤ 3 → ∃ r : ℚ, 0 ≤ r ∧ r < 1 ∧ getRandomInt r 1 3 = n) :=
  ⟨by decide, C16_getRandomInt_range 1 3 (by decide)⟩

/-! ## The difficulty roll -/

theorem getRandomInt_bounds (r : ℚ) (min max : Int) (h : min ≤ max) (h0 : 0 ≤ r) (h1 : r < 1) :
    min ≤ getRandomInt r min max ∧ getRandomInt r min max ≤ max := by
  have hk : (0 : ℚ) < (max : ℚ) - (min : ℚ) + 1 := by
    have : (min : ℚ) ≤ (max : ℚ) := by exact_mod_cast h
    linarith
  rw [getRandomInt_eq]
  have hlo : (0 : Int) ≤ ⌊r * ((max : ℚ) - (min : ℚ) + 1)⌋ :=
    Int.floor_nonneg.mpr (mul_nonneg h0 hk.le)
  have hhi : ⌊r * ((max : ℚ) - (min : ℚ) + 1)⌋ < max - min + 1 := by
    rw [Int.floor_lt]
    push_cast
    calc r * ((max : ℚ) - (min : ℚ) + 1) < 1 * ((max : ℚ) - (min : ℚ) + 1) :=
          mul_lt_mul_of_pos_right h1 hk
      _ = (max : ℚ) - (min : ℚ) + 1 := one_mul _
  constructor <;> omega

theorem getRandomInt_zero (min max : Int) : getRandomInt 0 min max = min := by
  simp [getRandomInt_eq]

theorem getRandomInt_one_iff (r : ℚ) (max : Int) (h0 : 0 ≤ r) (hmax : 1 ≤ max) :
    getRandomInt r 1 max = 1 ↔ r < 1 / (max : ℚ) := by
  have hk : (0 : ℚ) < (max : ℚ) := by
    have : (1 : ℚ) ≤ (max : ℚ) := by exact_mod_cast hmax
    linarith
  rw [getRandomInt_eq]
  have hsimp : r * ((max : ℚ) - ((1 : Int) : ℚ) + 1) = r * (max : ℚ) := by push_cast; ring
  rw [hsimp]
  constructor
  · intro h
    have hfl : ⌊r * (max : ℚ)⌋ = 0 := by omega
    have := (Int.floor_eq_iff.mp hfl).2
    rw [lt_div_iff₀ hk]
    simpa using this
  · intro h
    have hfl : ⌊r * (max : ℚ)⌋ = 0 := by
      rw [Int.floor_eq_iff]
      refine ⟨by simpa using mul_nonneg h0 hk.le, ?_⟩
      rw [lt_div_iff₀ hk] at h
      simpa using h
    omega

theorem pick_skip (r : ℚ) (s : Presenter)
    (h : (s.difficultyLevel = "very easy" ∧ getRandomInt r 1 2 = 1) ∨
      (s.difficultyLevel = "easy" ∧ getRandomInt r 1 3 = 1)) :
    s.pick r = (0, none) := by
  unfold Presenter.pick
  rcases h with ⟨hl, hr⟩ | ⟨hl, hr⟩
  · simp [hl, hr]
  · simp [hl, hr]

theorem pick_search (r : ℚ) (s : Presenter)
    (h : (s.difficultyLevel = "very easy" ∧ getRandomInt r 1 2 ≠ 1) ∨
      (s.difficultyLevel = "easy" ∧ getRandomInt r 1 3 ≠ 1) ∨
      s.difficultyLevel = "medium") :
    s.pick r = search s.pile s.computer.list := by
  unfold Presenter.pick
  rcases h with ⟨hl, hr⟩ | ⟨hl, hr⟩ | hl
  · simp [hl, hr, Player.getHandCopy]
  · simp [hl, hr, Player.getHandCopy]
  · simp [hl, Player.getHandCopy]

theorem playComputer_draws (sh : Shuffle) (r : ℚ) (s : Presenter)
    (hv : s.pile.isValidToPlay (s.pick r).2 = false) (d : Card) (ds : List Card)
    (hd : s.deck.list = d :: ds) (hleft : ds ≠ [] ∨ s.pile.list ≠ []) :
    ∃ s', s.playComputer sh r = some s' ∧
      s'.computer.list = s.computer.list ++ [d] ∧
      s'.pile.getTopCard = s.pile.getTopCard ∧ s'.human = s.human ∧
      List.Perm (s'.deck.list ++ s'.pile.list) (ds ++ s.pile.list) := by
  have hstep := playComputer_of_invalid sh r s hv
  obtain ⟨m, hm1, md, mp, mh, mc⟩ : ∃ m, s.computerDraws = some m ∧ m.deck.list = ds ∧
      m.pile = s.pile ∧ m.human = s.human ∧ m.computer.list = s.computer.list ++ [d] :=
    ⟨_, computerDraws_cons s d ds hd, rfl, rfl, rfl, rfl⟩
  rw [hm1, Option.some_bind] at hstep
  obtain ⟨s', hs'⟩ : ∃ s', m.updateDeckIfEmpty sh = some s' := by
    rcases hleft with h | h
    · exact ⟨m, updateDeckIfEmpty_of_ne sh m (by rw [md]; exact h)⟩
    · exact updateDeckIfEmpty_isSome sh m (by rw [mp]; exact h)
  obtain ⟨hperm, hh, hcomp, _, _, htop, _⟩ := updateDeckIfEmpty_keeps sh _ _ hs'
  refine ⟨s', ?_, ?_, ?_, hh.trans mh, ?_⟩
  · rw [hstep]; exact hs'
  · rw [hcomp, mc]
  · unfold Pile.getTopCard; rw [htop, mp]
  · rw [md, mp] at hperm; exact hperm

/-- C17. Forced draw on the skip roll: at difficulty `very easy` when the roll from 1 to 2 is 1,
and at difficulty `easy` when the roll from 1 to 3 is 1, the switch of `playComputer` leaves no
card, nothing is played and the top card of the deck is added to the computer's hand, whatever
the hand holds. For a value `r` of `Math.random()` with `0 ≤ r < 1` the roll from 1 to 2 is 1 or
2 and is 1 exactly when `r < 1/2`; the roll from 1 to 3 is 1, 2 or 3 and is 1 exactly when
`r < 1/3`. At `medium` the switch does not depend on `r` and always searches. -/
theorem C17_forced_draw_on_skip (sh : Shuffle) (r : ℚ) (s : Presenter) :
    ((s.difficultyLevel = "very easy" ∧ getRandomInt r 1 2 = 1) ∨
        (s.difficultyLevel = "easy" ∧ getRandomInt r 1 3 = 1) →
      s.pick r = (0, none) ∧
      s.playComputer sh r = s.computerDraws.bind (Presenter.updateDeckIfEmpty sh) ∧
      ∀ (d : Card) (ds : List Card), s.deck.list = d :: ds → ds ≠ [] ∨ s.pile.list ≠ [] →
        ∃ s', s.playComputer sh r = some s' ∧
          s'.computer.list = s.computer.list ++ [d] ∧
          s'.pile.getTopCard = s.pile.getTopCard ∧ s'.human = s.human ∧
          List.Perm (s'.deck.list ++ s'.pile.list) (ds ++ s.pile.list)) ∧
    (0 ≤ r → r < 1 →
      (getRandomInt r 1 2 = 1 ∨ getRandomInt r 1 2 = 2) ∧
      (getRandomInt r 1 2 = 1 ↔ r < 1 / 2) ∧
      (getRandomInt r 1 3 = 1 ∨ getRandomInt r 1 3 = 2 ∨ getRandomInt r 1 3 = 3) ∧
      (getRandomInt r 1 3 = 1 ↔ r < 1 / 3)) ∧
    (s.difficultyLevel = "medium" →
      ∀ r' : ℚ, s.pick r' = search s.pile s.computer.list) := by
  refine ⟨?_, ?_, ?_⟩
  · intro h
    have hpick := pick_skip r s h
    have hv : s.pile.isValidToPlay (s.pick r).2 = false := by rw [hpick]; rfl
    exact ⟨hpick, playComputer_of_invalid sh r s hv,
      fun d ds hd hleft => playComputer_draws sh r s hv d ds hd hleft⟩
  · intro h0 h1
    have b2 := getRandomInt_bounds r 1 2 (by decide) h0 h1
    have b3 := getRandomInt_bounds r 1 3 (by decide) h0 h1
    refine ⟨by omega, ?_, by omega, ?_⟩
    · simpa using getRandomInt_one_iff r 2 h0 (by decide)
    · simpa using getRandomInt_one_iff r 3 h0 (by decide)
  · intro hm r'
    exact pick_search r' s (Or.inr (Or.inr hm))

theorem C17_forced_draw_on_skip_witness :
    (veryEasyGame.difficultyLevel = "very easy" ∧ getRandomInt 0 1 2 = 1) ∧
    veryEasyGame.pile.isValidToPlay (some ⟨.eight, .clubs⟩) = true ∧
    (⟨.eight, .clubs⟩ : Card) ∈ veryEasyGame.computer.list ∧
    veryEasyGame.pick 0 = (0, none) ∧
    ∃ s', veryEasyGame.playComputer Shuffle.keep 0 = some s' ∧
      s'.computer.list = veryEasyGame.computer.list ++ [⟨.five, .clubs⟩] ∧
      s'.pile.getTopCard = veryEasyGame.pile.getTopCard ∧ s'.human = veryEasyGame.human ∧
      List.Perm (s'.deck.list ++ s'.pile.list) ([⟨.jack, .spades⟩] ++ veryEasyGame.pile.list) :=
  ⟨⟨rfl, getRandomInt_zero 1 2⟩, by decide, by decide,
    ((C17_forced_draw_on_skip Shuffle.keep 0 veryEasyGame).1
      (Or.inl ⟨rfl, getRandomInt_zero 1 2⟩)).1,
    ((C17_forced_draw_on_skip Shuffle.keep 0 veryEasyGame).1
      (Or.inl ⟨rfl, getRandomInt_zero 1 2⟩)).2.2 ⟨.five, .clubs⟩ [⟨.jack, .spades⟩] rfl
      (Or.inl (by decide))⟩

/-! ## The difficulty level only steers the switch -/

theorem updateDeckIfEmpty_withLevel (sh : Shuffle) (level : String) (s : Presenter) :
    (s.withLevel level).updateDeckIfEmpty sh
      = (s.updateDeckIfEmpty sh).map (Presenter.withLevel level) := by
  unfold Presenter.updateDeckIfEmpty Presenter.updateDeck Pile.removeTopCard
  simp only [Presenter.withLevel]
  split
  · cases s.pile.list <;> rfl
  · rfl

theorem computerPlays_withLevel (i : Nat) (card : Card) (level : String) (s : Presenter) :
    (s.withLevel level).computerPlays i card = (s.computerPlays i card).withLevel level := by
  rw [computerPlays_eq, computerPlays_eq]
  rfl

theorem computerDraws_withLevel (level : String) (s : Presenter) :
    (s.withLevel level).computerDraws = s.computerDraws.map (Presenter.withLevel level) := by
  unfold Presenter.computerDraws Deck.dealACard
  simp only [Presenter.withLevel]
  cases s.deck.list <;> rfl

theorem playComputer_withLevel (sh : Shuffle) (r₁ r₂ : ℚ) (level : String) (s : Presenter)
    (hpick : (s.withLevel level).pick r₂ = s.pick r₁) :
    (s.withLevel level).playComputer sh r₂
      = (s.playComputer sh r₁).map (Presenter.withLevel level) := by
  unfold Presenter.playComputer
  simp only [hpick]
  have hpile : (s.withLevel level).pile = s.pile := rfl
  rw [hpile]
  cases hv : s.pile.isValidToPlay (s.pick r₁).2 with
  | true =>
    obtain ⟨c, hc⟩ := isValidToPlay_isSome _ _ hv
    simp only [hc, if_true, Option.some_bind]
    rw [computerPlays_withLevel, updateDeckIfEmpty_withLevel]
  | false =>
    simp only [Bool.false_eq_true, if_false]
    rw [computerDraws_withLevel]
    cases s.computerDraws with
    | none => rfl
    | some m =>
      simp only [Option.map_some', Option.some_bind]
      rw [updateDeckIfEmpty_withLevel]

/-- C18. Lower difficulties reduce to medium when not skipping: from the same state, when the
roll is not 1, `playComputer` at difficulty `very easy` and at difficulty `easy` does exactly
what it does at `medium`: both return no state, or both return a state, with the same deck,
pile, announced suit, hands and display trace (only the stored difficulty level differs). -/
theorem C18_lower_levels_reduce_to_medium (sh : Shuffle) (r : ℚ) (s : Presenter) :
    (getRandomInt r 1 2 ≠ 1 →
      (s.withLevel "very easy").playComputer sh r
        = ((s.withLevel "medium").playComputer sh r).map (Presenter.withLevel "very easy")) ∧
    (getRandomInt r 1 3 ≠ 1 →
      (s.withLevel "easy").playComputer sh r
        = ((s.withLevel "medium").playComputer sh r).map (Presenter.withLevel "easy")) ∧
    (∀ level t, (level = "very easy" ∧ getRandomInt r 1 2 ≠ 1) ∨
        (level = "easy" ∧ getRandomInt r 1 3 ≠ 1) →
      (s.withLevel "medium").playComputer sh r = some t →
      ∃ t', (s.withLevel level).playComputer sh r = some t' ∧
        t'.deck = t.deck ∧ t'.pile = t.pile ∧ t'.human = t.human ∧
        t'.computer = t.computer ∧ t'.view = t.view) := by
  have hmed : (s.withLevel "medium").pick r = search s.pile s.computer.list :=
    pick_search r _ (Or.inr (Or.inr rfl))
  have hve : getRandomInt r 1 2 ≠ 1 →
      (s.withLevel "very easy").playComputer sh r
        = ((s.withLevel "medium").playComputer sh r).map (Presenter.withLevel "very easy") := by
    intro hr
    have hp : (s.withLevel "very easy").pick r = search s.pile s.computer.list :=
      pick_search r _ (Or.inl ⟨rfl, hr⟩)
    exact playComputer_withLevel sh r r "very easy" (s.withLevel "medium") (hp.trans hmed.symm)
  have he : getRandomInt r 1 3 ≠ 1 →
      (s.withLevel "easy").playComputer sh r
        = ((s.withLevel "medium").playComputer sh r).map (Presenter.withLevel "easy") := by
    intro hr
    have hp : (s.withLevel "easy").pick r = search s.pile s.computer.list :=
      pick_search r _ (Or.inr (Or.inl ⟨rfl, hr⟩))
    exact playComputer_withLevel sh r r "easy" (s.withLevel "medium") (hp.trans hmed.symm)
  refine ⟨hve, he, ?_⟩
  intro level t hl ht
  rcases hl with ⟨rfl, hr⟩ | ⟨rfl, hr⟩
  · exact ⟨t.withLevel "very easy", by rw [hve hr, ht]; rfl, rfl, rfl, rfl, rfl, rfl⟩
  · exact ⟨t.withLevel "easy", by rw [he hr, ht]; rfl, rfl, rfl, rfl, rfl, rfl⟩

theorem C18_lower_levels_reduce_to_medium_witness :
    getRandomInt (1 / 2) 1 2 ≠ 1 ∧
    (computerEightGame.withLevel "very easy").playComputer Shuffle.keep (1 / 2)
      = ((computerEightGame.withLevel "medium").playComputer Shuffle.keep (1 / 2)).map
          (Presenter.withLevel "very easy") :=
  have hroll : getRandomInt (1 / 2) 1 2 ≠ 1 := fun h =>
    absurd ((getRandomInt_one_iff (1 / 2) 2 (by norm_num) (by decide)).mp h) (by norm_num)
  ⟨hroll, (C18_lower_levels_reduce_to_medium Shuffle.keep (1 / 2) computerEightGame).1 hroll⟩

theorem playComputer_eq_none_iff (sh : Shuffle) (r : ℚ) (s : Presenter) (hp : s.pile.list ≠ []) :
    s.playComputer sh r = none ↔
      s.deck.list = [] ∧ s.pile.isValidToPlay (s.pick r).2 = false := by
  constructor
  · intro hnone
    cases hv : s.pile.isValidToPlay (s.pick r).2 with
    | true =>
      obtain ⟨c, hc⟩ := isValidToPlay_isSome _ _ hv
      have hpick : s.pick r = ((s.pick r).1, some c) := Prod.ext rfl hc
      rw [playComputer_of_valid sh r s _ c hpick (by rw [← hc]; exact hv)] at hnone
      obtain ⟨s', hs'⟩ := updateDeckIfEmpty_isSome sh (s.computerPlays (s.pick r).1 c)
        (by rw [(computerPlays_fields _ c s).2.1]; exact List.cons_ne_nil _ _)
      rw [hs'] at hnone
      exact Option.noConfusion hnone
    | false =>
      refine ⟨?_, rfl⟩
      by_contra hd
      obtain ⟨s', hs'⟩ := playComputer_isSome sh r s hd hp
      rw [hs'] at hnone
      exact Option.noConfusion hnone
  · rintro ⟨hd, hv⟩
    rw [playComputer_of_invalid sh r s hv, computerDraws_nil s hd]
    rfl

/-- C20. Guarded multiset conservation: whenever `drawCard`, `playCard`,
`continueGameAfterSuitSelection` or `playComputer` returns a state, which is when no card was
dealt from an empty deck during the call (`updateDeck` is entered only behind the test for an
empty deck), the cards of deck, pile and both hands together are a permutation of what they
were: none is lost, none is duplicated. For `playComputer` on a pile with a top card, returning
no state is the same as dealing from an empty deck. -/
theorem C20_guarded_conservation (s s' : Presenter) :
    (∀ sh₁ sh₂ r, s.drawCard sh₁ sh₂ r = some s' → List.Perm s'.cards s.cards) ∧
    (∀ sh₁ sh₂ r cardString, s.playCard sh₁ sh₂ r cardString = some s' →
      List.Perm s'.cards s.cards) ∧
    (∀ sh₁ sh₂ r suit, s.continueGameAfterSuitSelection sh₁ sh₂ r suit = some s' →
      List.Perm s'.cards s.cards) ∧
    (∀ sh r, s.playComputer sh r = some s' → List.Perm s'.cards s.cards) ∧
    (∀ sh r, s.pile.list ≠ [] →
      (s.playComputer sh r = none ↔
        s.deck.list = [] ∧ s.pile.isValidToPlay (s.pick r).2 = false)) :=
  ⟨fun sh₁ sh₂ r h => (drawCard_cards sh₁ sh₂ r s s' h).1,
    fun sh₁ sh₂ r cardString h => (playCard_cards sh₁ sh₂ r cardString s s' h).1,
    fun sh₁ sh₂ r suit h => (continueGameAfterSuitSelection_cards sh₁ sh₂ r suit s s' h).1,
    fun sh r h => (playComputer_cards sh r s s' h).1,
    fun sh r hp => playComputer_eq_none_iff sh r s hp⟩

theorem C20_guarded_conservation_witness :
    freshGame.playCard Shuffle.keep Shuffle.keep 0 "8s" = some pendingGame ∧
    List.Perm pendingGame.cards freshGame.cards ∧
    pendingGame.continueGameAfterSuitSelection Shuffle.keep Shuffle.keep 0 Suit.hearts
      = some staleSuitGame ∧
    List.Perm staleSuitGame.cards pendingGame.cards :=
  have h₁ : freshGame.playCard Shuffle.keep Shuffle.keep 0 "8s" = some pendingGame := by decide
  have h₂ : pendingGame.continueGameAfterSuitSelection Shuffle.keep Shuffle.keep 0 Suit.hearts
      = some staleSuitGame := by decide
  ⟨h₁, (C20_guarded_conservation freshGame pendingGame).2.1 _ _ _ _ h₁,
    h₂, (C20_guarded_conservation pendingGame staleSuitGame).2.2.1 _ _ _ _ h₂⟩

/-! ## The program going on after an empty deal: the pile -/

theorem Game.updateDeckIfEmpty_pile (sh : Shuffle) (g : Game) (h : g.pile.list ≠ []) :
    ∃ g', g.updateDeckIfEmpty sh = some g' ∧ g'.pile.list ≠ [] ∧
      g'.human = g.human ∧ g'.computer = g.computer ∧
      g'.deck.list.length + g'.pile.list.length = g.deck.list.length + g.pile.list.length := by
  unfold Game.updateDeckIfEmpty
  by_cases hd : g.deck.list.length = 0
  · rw [if_pos hd]
    obtain ⟨t, rest, hl⟩ := List.exists_cons_of_ne_nil h
    refine ⟨{ g with deck := ⟨sh.run rest⟩, pile := ⟨[t], g.pile.announcedSuit⟩ }, ?_, ?_,
      rfl, rfl, ?_⟩
    · unfold Game.updateDeck Pile.removeTopCard
      rw [hl]
      simp [drainPile_eq, Pile.acceptACard, Deck.shuffle]
    · exact List.cons_ne_nil _ _
    · have := (sh.perm rest).length_eq
      simp only [hl, List.length_cons, List.length_nil, hd]
      omega
  · rw [if_neg hd]
    exact ⟨g, rfl, h, rfl, rfl, rfl⟩

theorem Game.computerPlays_entries (i : Nat) (card : Card) (g : Game) :
    (g.computerPlays i card).deck = g.deck ∧
    (g.computerPlays i card).pile.list = card :: g.pile.list ∧
    (g.computerPlays i card).human = g.human ∧
    (g.computerPlays i card).computer.list = g.computer.list.eraseIdx i := by
  unfold Game.computerPlays
  simp only [Pile.acceptACard, Pile.setAnnouncedSuit, Hand.remove]
  refine ⟨?_, ?_, ?_, ?_⟩ <;> split <;> rfl

theorem Game.computerDraws_fields (g : Game) :
    g.computerDraws.pile = g.pile ∧ g.computerDraws.human = g.human ∧
    g.computerDraws.computer.list = g.computer.list ++ [g.deck.list.head?] ∧
    g.computerDraws.deck.list = g.deck.list.tail := by
  unfold Game.computerDraws Deck.dealOrUndefined
  cases hd : g.deck.list <;> simp [Hand.add, hd]

theorem Game.humanDraws_fields (g : Game) :
    g.humanDraws.pile = g.pile ∧ g.humanDraws.computer = g.computer ∧
    g.humanDraws.human.list = g.human.list ++ [g.deck.list.head?] ∧
    g.humanDraws.deck.list = g.deck.list.tail := by
  unfold Game.humanDraws Deck.dealOrUndefined
  cases hd : g.deck.list <;> simp [Hand.add, hd]

theorem Game.playComputer_pile (sh : Shuffle) (r : ℚ) (g : Game) (h : g.pile.list ≠ []) :
    ∃ g', g.playComputer sh r = some g' ∧ g'.pile.list ≠ [] := by
  unfold Game.playComputer
  simp only
  cases hv : g.pile.isValidToPlay (g.pick r).2 with
  | true =>
    obtain ⟨c, hc⟩ := isValidToPlay_isSome _ _ hv
    simp only [hc, if_true, Option.some_bind]
    obtain ⟨g', hg', hne, _⟩ := Game.updateDeckIfEmpty_pile sh (g.computerPlays (g.pick r).1 c)
      (by rw [(Game.computerPlays_entries _ c g).2.1]; exact List.cons_ne_nil _ _)
    exact ⟨g', hg', hne⟩
  | false =>
    simp only [Bool.false_eq_true, if_false, Option.some_bind]
    obtain ⟨g', hg', hne, _⟩ := Game.updateDeckIfEmpty_pile sh g.computerDraws
      (by rw [(Game.computerDraws_fields g).1]; exact h)
    exact ⟨g', hg', hne⟩

theorem Game.drawCard_pile (sh₁ sh₂ : Shuffle) (r : ℚ) (g : Game) (h : g.pile.list ≠ []) :
    ∃ g', g.drawCard sh₁ sh₂ r = some g' ∧ g'.pile.list ≠ [] := by
  unfold Game.drawCard
  obtain ⟨m, hm, hne, _⟩ := Game.updateDeckIfEmpty_pile sh₁ g.humanDraws
    (by rw [(Game.humanDraws_fields g).1]; exact h)
  rw [hm, Option.some_bind]
  exact Game.playComputer_pile sh₂ r m hne

theorem Game.humanPlays_pile (card : Card) (g : Game) :
    (g.humanPlays card).pile.list = card :: g.pile.list := rfl

theorem Game.playCard_pile (sh₁ sh₂ : Shuffle) (r : ℚ) (cardString : String) (g : Game)
    (h : g.pile.list ≠ []) :
    ∃ g', g.playCard sh₁ sh₂ r cardString = some g' ∧ g'.pile.list ≠ [] := by
  unfold Game.playCard
  simp only
  cases hv : g.pile.isValidToPlay (g.human.find cardString) with
  | false =>
    simp only [Bool.false_eq_true, if_false]
    exact ⟨g, rfl, h⟩
  | true =>
    obtain ⟨c, hc⟩ := isValidToPlay_isSome _ _ hv
    simp only [hc, if_true]
    have hne : (g.humanPlays c).pile.list ≠ [] := by
      rw [Game.humanPlays_pile]; exact List.cons_ne_nil _ _
    have hnext : ∃ m, (if (Option.map Card.getValue (g.humanPlays c).pile.getTopCard)
          = some Rank.eight then some (g.humanPlays c)
        else if (g.humanPlays c).human.isHandEmpty = true then some (g.humanPlays c)
        else (g.humanPlays c).playComputer sh₁ r) = some m ∧ m.pile.list ≠ [] := by
      split
      · exact ⟨_, rfl, hne⟩
      · split
        · exact ⟨_, rfl, hne⟩
        · exact Game.playComputer_pile sh₁ r _ hne
    obtain ⟨m, hm, hmne⟩ := hnext
    rw [hm, Option.some_bind]
    obtain ⟨g', hg', hne', _⟩ := Game.updateDeckIfEmpty_pile sh₂ m hmne
    exact ⟨g', hg', hne'⟩

theorem Game.continueGameAfterSuitSelection_pile (sh₁ sh₂ : Shuffle) (r : ℚ) (suit : Suit)
    (g : Game) (h : g.pile.list ≠ []) :
    ∃ g', g.continueGameAfterSuitSelection sh₁ sh₂ r suit = some g' ∧ g'.pile.list ≠ [] := by
  unfold Game.continueGameAfterSuitSelection
  simp only
  split
  · exact ⟨_, rfl, h⟩
  · obtain ⟨m, hm, hne, _⟩ := Game.updateDeckIfEmpty_pile sh₁
      { g with pile := g.pile.setAnnouncedSuit suit } h
    rw [hm, Option.some_bind]
    exact Game.playComputer_pile sh₂ r m hne

theorem Game.call_pile (g : Game) (c : Call) (h : g.pile.list ≠ []) :
    ∃ g', g.call c = some g' ∧ g'.pile.list ≠ [] := by
  cases c with
  | drawCard sh₁ sh₂ r => exact Game.drawCard_pile sh₁ sh₂ r g h
  | playCard sh₁ sh₂ r cardString => exact Game.playCard_pile sh₁ sh₂ r cardString g h
  | continueGameAfterSuitSelection sh₁ sh₂ r suit =>
    exact Game.continueGameAfterSuitSelection_pile sh₁ sh₂ r suit g h
  | setDifficulty level => exact ⟨_, rfl, h⟩

theorem Game.reachable_pile (g : Game) (h : Game.Reachable g) : g.pile.list ≠ [] := by
  induction h with
  | start shs s hs => exact (new_cards shs s hs).2
  | step g g' c _ hc ih =>
    obtain ⟨g'', hg'', hne⟩ := Game.call_pile g c ih
    rw [hc] at hg''
    injection hg'' with hg''
    rw [hg'']
    exact hne

theorem Game.reachable_of_run (g g' : Game) (cs : List Call) (h : Game.Reachable g)
    (hrun : g.run cs = some g') : Game.Reachable g' := by
  induction cs generalizing g with
  | nil =>
    simp only [Game.run, Option.some.injEq] at hrun
    subst hrun
    exact h
  | cons c cs ih =>
    simp only [Game.run] at hrun
    obtain ⟨m, hm, hrest⟩ := Option.bind_eq_some.mp hrun
    exact ih m (Game.Reachable.step g m c h hm) hrest

theorem overdrawnGame_run : drainGame.toGame.run overdrawCalls = some overdrawnGame := by decide

theorem overdrawnGame_reachable : Game.Reachable overdrawnGame :=
  Game.reachable_of_run drainGame.toGame overdrawnGame overdrawCalls
    (Game.Reachable.start [Shuffle.stack drainDeck] drainGame drainGame_new) overdrawnGame_run

/-! ## The two embeddings agree wherever no card is dealt from an empty deck -/

theorem map_some_getElem?_join (l : List Card) (i : Nat) : (l.map some)[i]?.join = l[i]? := by
  rw [List.getElem?_map]
  cases l[i]? <;> rfl

theorem isEmpty_map_some (l : List Card) : (l.map some).isEmpty = l.isEmpty := by
  cases l <;> rfl

theorem toGame_isHandEmpty (s : Presenter) :
    s.toGame.human.isHandEmpty = s.human.isHandEmpty :=
  isEmpty_map_some s.human.list

theorem eraseIdx_map_some (l : List Card) (i : Nat) :
    (l.map some).eraseIdx i = (l.eraseIdx i).map some := by
  induction l generalizing i with
  | nil => rfl
  | cons a l ih =>
    cases i with
    | zero => rfl
    | succ i => simp [ih]

theorem indexOf_map_some (l : List Card) (c : Card) :
    (l.map some).indexOf (some c) = l.indexOf c := by
  induction l with
  | nil => rfl
  | cons a l ih =>
    by_cases hac : a = c
    · subst hac; simp [List.indexOf_cons]
    · have h₁ : ¬ (a == c) = true := by simpa using hac
      have h₂ : ¬ (some a == some c) = true := by simpa using hac
      simp only [List.map_cons, List.indexOf_cons, h₁, h₂, ih]

theorem gameSearchLoop_map_some (pile : Pile) (hand : List Card) (fuel i : Nat)
    (card : Option Card) :
    Game.searchLoop pile (hand.map some) fuel i card = searchLoop pile hand fuel i card := by
  induction fuel generalizing i card with
  | zero => rfl
  | succ fuel ih =>
    simp only [Game.searchLoop, searchLoop, List.length_map, map_some_getElem?_join]
    split
    · exact ih _ _
    · rfl

theorem toGame_pick (r : ℚ) (s : Presenter) : s.toGame.pick r = s.pick r := by
  have hsearch : Game.search s.pile (s.computer.list.map some) = search s.pile s.computer.list := by
    unfold Game.search search
    rw [List.length_map, map_some_getElem?_join]
    exact gameSearchLoop_map_some _ _ _ _ _
  unfold Game.pick Presenter.pick
  simp only [Presenter.toGame, Hand.getHandCopy, Player.getHandCopy, hsearch]

theorem toGame_find (cardString : String) (s : Presenter) :
    s.toGame.human.find cardString = s.human.find cardString := by
  unfold Hand.find Player.find
  simp only [Presenter.toGame]
  induction s.human.list with
  | nil => rfl
  | cons a l ih =>
    simp only [List.map_cons, List.find?_cons]
    cases a.toString == cardString with
    | true => rfl
    | false => exact ih

theorem toGame_updateDeckIfEmpty (sh : Shuffle) (s : Presenter) :
    s.toGame.updateDeckIfEmpty sh = (s.updateDeckIfEmpty sh).map Presenter.toGame := by
  unfold Game.updateDeckIfEmpty Presenter.updateDeckIfEmpty Game.updateDeck
    Presenter.updateDeck Pile.removeTopCard
  simp only [Presenter.toGame]
  split
  · cases s.pile.list <;> rfl
  · rfl

theorem toGame_computerPlays (i : Nat) (c : Card) (s : Presenter) :
    s.toGame.computerPlays i c = (s.computerPlays i c).toGame := by
  rw [computerPlays_eq]
  unfold Game.computerPlays
  by_cases h8 : c.getValue = Rank.eight <;>
    simp [Presenter.toGame, Hand.remove, Pile.acceptACard, Pile.setAnnouncedSuit,
      Pile.getTopCard, eraseIdx_map_some, h8]

theorem toGame_computerDraws (s m : Presenter) (h : s.computerDraws = some m) :
    s.toGame.computerDraws = m.toGame := by
  cases hd : s.deck.list with
  | nil => rw [computerDraws_nil s hd] at h; exact Option.noConfusion h
  | cons c d =>
    rw [computerDraws_cons s c d hd] at h
    injection h with h
    subst h
    simp [Game.computerDraws, Deck.dealOrUndefined, Presenter.toGame, Hand.add, hd]

theorem toGame_humanDraws (s m : Presenter) (h : s.humanDraws = some m) :
    s.toGame.humanDraws = m.toGame := by
  cases hd : s.deck.list with
  | nil => rw [humanDraws_nil s hd] at h; exact Option.noConfusion h
  | cons c d =>
    rw [humanDraws_cons s c d hd] at h
    injection h with h
    subst h
    simp [Game.humanDraws, Deck.dealOrUndefined, Presenter.toGame, Hand.add, hd]

theorem toGame_notify (e : Event) (s : Presenter) : (s.notify e).toGame = s.toGame := rfl

theorem toGame_humanPlays (c : Card) (s : Presenter) :
    s.toGame.humanPlays c = (s.humanPlays c).toGame := by
  simp [Game.humanPlays, Presenter.humanPlays, Presenter.toGame, Presenter.notify, Hand.remove,
    Player.remove, Hand.indexOf, Player.indexOf, Pile.acceptACard, indexOf_map_some,
    eraseIdx_map_some]

theorem toGame_playComputer (sh : Shuffle) (r : ℚ) (s s' : Presenter)
    (h : s.playComputer sh r = some s') : s.toGame.playComputer sh r = some s'.toGame := by
  unfold Game.playComputer
  have hpile : s.toGame.pile = s.pile := rfl
  simp only [toGame_pick, hpile]
  cases hv : s.pile.isValidToPlay (s.pick r).2 with
  | true =>
    obtain ⟨c, hc⟩ := isValidToPlay_isSome _ _ hv
    have hpick : s.pick r = ((s.pick r).1, some c) := Prod.ext rfl hc
    rw [playComputer_of_valid sh r s _ c hpick (by rw [← hc]; exact hv)] at h
    simp only [hc, if_true, Option.some_bind]
    rw [toGame_computerPlays, toGame_updateDeckIfEmpty, h]
    rfl
  | false =>
    rw [playComputer_of_invalid sh r s hv] at h
    obtain ⟨m, hm, hupd⟩ := Option.bind_eq_some.mp h
    simp only [Bool.false_eq_true, if_false, Option.some_bind]
    rw [toGame_computerDraws s m hm, toGame_updateDeckIfEmpty, hupd]
    rfl

theorem toGame_drawCard (sh₁ sh₂ : Shuffle) (r : ℚ) (s s' : Presenter)
    (h : s.drawCard sh₁ sh₂ r = some s') : s.toGame.drawCard sh₁ sh₂ r = some s'.toGame := by
  unfold Presenter.drawCard at h
  cases hd : s.humanDraws with
  | none => rw [hd] at h; exact Option.noConfusion h
  | some m =>
    rw [hd] at h
    obtain ⟨m', hm', hplay⟩ := Option.bind_eq_some.mp h
    unfold Game.drawCard
    rw [toGame_humanDraws s m hd, toGame_updateDeckIfEmpty, hm']
    exact toGame_playComputer sh₂ r m' s' hplay

theorem toGame_playCard (sh₁ sh₂ : Shuffle) (r : ℚ) (cardString : String) (s s' : Presenter)
    (h : s.playCard sh₁ sh₂ r cardString = some s') :
    s.toGame.playCard sh₁ sh₂ r cardString = some s'.toGame := by
  unfold Game.playCard
  have hpile : s.toGame.pile = s.pile := rfl
  simp only [toGame_find, hpile]
  cases hv : s.pile.isValidToPlay (s.human.find cardString) with
  | false =>
    rw [playCard_of_invalid sh₁ sh₂ r s cardString hv] at h
    injection h with h
    subst h
    simp only [Bool.false_eq_true, if_false]
    rfl
  | true =>
    obtain ⟨c, hc⟩ := isValidToPlay_isSome _ _ hv
    have hvc : s.pile.isValidToPlay (some c) = true := by rw [← hc]; exact hv
    rw [playCard_of_valid sh₁ sh₂ r s c cardString hc hvc] at h
    obtain ⟨m, hm, hupd⟩ := Option.bind_eq_some.mp h
    simp only [hc, if_true]
    rw [toGame_humanPlays]
    have htop : (Option.map Card.getValue (s.humanPlays c).toGame.pile.getTopCard
        = some Rank.eight) ↔ c.getValue = Rank.eight := by
      simp [Presenter.toGame, humanPlays_eq, Pile.getTopCard]
    have hempty : (s.humanPlays c).toGame.human.isHandEmpty
        = (s.humanPlays c).human.isHandEmpty := toGame_isHandEmpty _
    have hnext : (if Option.map Card.getValue (s.humanPlays c).toGame.pile.getTopCard
          = some Rank.eight then some (s.humanPlays c).toGame
        else if (s.humanPlays c).toGame.human.isHandEmpty = true then some (s.humanPlays c).toGame
        else (s.humanPlays c).toGame.playComputer sh₁ r) = some m.toGame := by
      by_cases h8 : c.getValue = Rank.eight
      · rw [if_pos (htop.mpr h8)]
        rw [if_pos h8] at hm
        injection hm with hm
        subst hm
        rfl
      · rw [if_neg (fun hh => h8 (htop.mp hh)), hempty]
        rw [if_neg h8] at hm
        split at hm
        · rename_i he
          rw [if_pos he]
          injection hm with hm
          subst hm
          rfl
        · rename_i he
          rw [if_neg he]
          exact toGame_playComputer sh₁ r _ m hm
    rw [hnext, Option.some_bind, toGame_updateDeckIfEmpty, hupd]
    rfl

theorem toGame_continueGameAfterSuitSelection (sh₁ sh₂ : Shuffle) (r : ℚ) (suit : Suit)
    (s s' : Presenter) (h : s.continueGameAfterSuitSelection sh₁ sh₂ r suit = some s') :
    s.toGame.continueGameAfterSuitSelection sh₁ sh₂ r suit = some s'.toGame := by
  obtain ⟨m, hm, hhand⟩ : ∃ m : Presenter, m = { s with pile := s.pile.setAnnouncedSuit suit } ∧
      m.human = s.human := ⟨_, rfl, rfl⟩
  have hold : s.continueGameAfterSuitSelection sh₁ sh₂ r suit
      = if m.human.isHandEmpty = true then some (m.notify Event.announceHumanWinner)
        else (m.updateDeckIfEmpty sh₁).bind (Presenter.playComputer sh₂ r) := by
    rw [hm]; rfl
  have hnew : s.toGame.continueGameAfterSuitSelection sh₁ sh₂ r suit
      = if m.toGame.human.isHandEmpty = true then some m.toGame
        else (m.toGame.updateDeckIfEmpty sh₁).bind (Game.playComputer sh₂ r) := by
    rw [hm]; rfl
  rw [hold] at h
  rw [hnew, toGame_isHandEmpty]
  by_cases he : m.human.isHandEmpty = true
  · rw [if_pos he] at h ⊢
    injection h with h
    subst h
    rfl
  · rw [if_neg he] at h ⊢
    obtain ⟨m', hm', hplay⟩ := Option.bind_eq_some.mp h
    rw [toGame_updateDeckIfEmpty, hm']
    exact toGame_playComputer sh₂ r m' s' hplay

theorem toGame_call (s s' : Presenter) (c : Call) (h : s.call c = some s') :
    s.toGame.call c = some s'.toGame := by
  cases c with
  | drawCard sh₁ sh₂ r => exact toGame_drawCard sh₁ sh₂ r s s' h
  | playCard sh₁ sh₂ r cardString => exact toGame_playCard sh₁ sh₂ r cardString s s' h
  | continueGameAfterSuitSelection sh₁ sh₂ r suit =>
    exact toGame_continueGameAfterSuitSelection sh₁ sh₂ r suit s s' h
  | setDifficulty level =>
    simp only [Presenter.call, Option.some.injEq] at h
    subst h
    rfl

/-- Every state the first embedding reaches is reached by the program going on as well. -/
theorem toGame_reachable (s : Presenter) (h : Reachable s) : Game.Reachable s.toGame := by
  induction h with
  | start shs s hs => exact Game.Reachable.start shs s hs
  | step s s' c _ hc ih => exact Game.Reachable.step _ _ c ih (toGame_call s s' c hc)

/-! ## Claims settled on the program going on after an empty deal -/

/-- C1, the code at the failing input. In the game constructed from `drainDeck` (52 entries) the
human draws nineteen times. The first eighteen calls return the state `lastDrawGame` in both
embeddings. In the nineteenth the human takes the last card, the refill leaves the deck empty,
and `playComputer` stores the `undefined` that `dealACard()` returns on the empty deck in the
computer's hand: the state reached holds 53 entries, not 52. -/
theorem C1_entries_after_empty_deal :
    Presenter.new [Shuffle.stack drainDeck] = some drainGame ∧
    drainGame.toGame.total = 52 ∧
    drainGame.run drainCalls = some lastDrawGame ∧
    lastDrawGame.toGame.total = 52 ∧
    lastDrawGame.toGame.drawCard Shuffle.keep Shuffle.keep 0 = some overdrawnGame ∧
    drainGame.toGame.run overdrawCalls = some overdrawnGame ∧
    Game.Reachable overdrawnGame ∧
    overdrawnGame.computer.list.getLast? = some none ∧
    overdrawnGame.total = 53 :=
  ⟨drainGame_new, by decide, lastDrawGame_run, by decide, by decide, overdrawnGame_run,
    overdrawnGame_reachable, by decide, by decide⟩

/-- C19. Pile is never empty: in every state reached from a freshly constructed game by any
sequence of `drawCard`, `playCard` and `continueGameAfterSuitSelection`, the calls that deal from
an empty deck and the states after them included, the pile holds at least one card, so
`getTopCard` has a card to return and `removeTopCard` one to pop. Every further call returns a
state with a card on the pile; as popping an empty pile is the one operation without a result
here, no `updateDeck` inside any call ever finds the pile empty. -/
theorem C19_pile_never_empty (g : Game) (h : Game.Reachable g) :
    1 ≤ g.pile.list.length ∧
    (∃ t, g.pile.getTopCard = some t) ∧
    (∃ t p, g.pile.removeTopCard = some (t, p)) ∧
    (∀ sh, ∃ g', g.updateDeck sh = some g') ∧
    (∀ c : Call, ∃ g', g.call c = some g' ∧ g'.pile.list ≠ []) := by
  have hne := Game.reachable_pile g h
  obtain ⟨t, rest, hl⟩ := List.exists_cons_of_ne_nil hne
  refine ⟨?_, ⟨t, ?_⟩, ⟨t, { g.pile with list := rest }, ?_⟩, ?_, ?_⟩
  · rw [hl]; simp
  · simp [Pile.getTopCard, hl]
  · simp [Pile.removeTopCard, hl]
  · intro sh
    unfold Game.updateDeck Pile.removeTopCard
    rw [hl]
    exact ⟨_, rfl⟩
  · exact fun c => Game.call_pile g c hne

theorem C19_pile_never_empty_witness :
    Game.Reachable overdrawnGame ∧
    1 ≤ overdrawnGame.pile.list.length ∧
    (∃ t, overdrawnGame.pile.getTopCard = some t) ∧
    (∃ t p, overdrawnGame.pile.removeTopCard = some (t, p)) ∧
    (∀ sh, ∃ g', overdrawnGame.updateDeck sh = some g') ∧
    (∀ c : Call, ∃ g', overdrawnGame.call c = some g' ∧ g'.pile.list ≠ []) :=
  ⟨overdrawnGame_reachable, C19_pile_never_empty overdrawnGame overdrawnGame_reachable⟩

end CrazyEights
